import Mathlib

/-!
# Verification of the questicle scripting-language core

A shallow embedding, in Lean 4, of the core of the questicle scripting
language: the comment-preserving token formatter (`src/formatter.rs`), the
lexer (`src/lexer.rs`), the recursive-descent parser (`src/parser.rs`), the
type-compatibility relation of the checker (`src/typecheck.rs`), and the
tree-walking interpreter with its shared-mutable environment chain
(`src/eval.rs`, `src/env.rs`).

Modelling conventions:

* Rust `f64` numbers are modelled by exact rationals (`QF` below, a
  kernel-computable normalized fraction).  All number literals appearing in
  the programs examined here are exactly representable in `f64`, and every
  arithmetic step performed on them is exact in `f64`, so the rational
  model agrees with the Rust semantics on those runs.  IEEE-754 infinities
  and NaN are not representable; `QF` division by zero returns `⟨0, 1⟩`
  (this is noted wherever it matters).
* The `Rc<RefCell<Env>>` environment chain is modelled by an explicit heap
  (`List Env`) addressed by `Nat` indices; `Rc::clone` is index copying and
  `borrow_mut` mutation is heap update, which preserves the source's
  aliasing behaviour exactly.
* Recursive interpreter/parser functions take an explicit fuel argument;
  running out of fuel yields a distinguished result that never occurs at
  the fuel values used by the theorems below.
* Strings are `String`/`List Char`; `BTreeMap` is an association list kept
  sorted by a byte-wise (here: code-point-wise) key order, which agrees
  with Rust's `Ord for String` on the ASCII data involved.
-/

namespace Questicle

/-! ## Exact rational numbers standing in for `f64`

`qmk n d` builds the normalized fraction `n / d`; `d = 0` (which `f64`
would turn into ±∞ or NaN) is collapsed to `⟨0, 1⟩` — no claim below
depends on that value.  `Nat.gcd` reduces inside the Lean kernel, so all
of this computes under `decide`/`rfl`. -/

structure QF where
  num : Int
  den : Nat
deriving DecidableEq, Repr

def qmk (n d : Int) : QF :=
  if d = 0 then ⟨0, 1⟩
  else
    let n' := if d < 0 then -n else n
    let d' := d.natAbs
    let g := Nat.gcd n'.natAbs d'
    ⟨n' / (g : Int), d' / g⟩

def qZero : QF := ⟨0, 1⟩
def qOne : QF := ⟨1, 1⟩
def qOfNat (n : Nat) : QF := ⟨(n : Int), 1⟩

def qAdd (a b : QF) : QF := qmk (a.num * b.den + b.num * a.den) ((a.den : Int) * b.den)
def qSub (a b : QF) : QF := qmk (a.num * b.den - b.num * a.den) ((a.den : Int) * b.den)
def qMul (a b : QF) : QF := qmk (a.num * b.num) ((a.den : Int) * b.den)
def qDiv (a b : QF) : QF := qmk (a.num * b.den) ((a.den : Int) * b.num)
def qNeg (a : QF) : QF := ⟨-a.num, a.den⟩

/-- Truncation toward zero, as in Rust's `f64 as`-casts and the `%`
operator (`Int.tdiv` is T-division). -/
def qTrunc (a : QF) : Int := Int.tdiv a.num (a.den : Int)

/-- Rust `f64 %`: `a - b * trunc(a / b)` (exact for the rational inputs
considered; `b = 0` inherits the `qDiv` convention). -/
def qMod (a b : QF) : QF := qSub a (qMul b ⟨qTrunc (qDiv a b), 1⟩)

def qLt (a b : QF) : Bool := a.num * (b.den : Int) < b.num * (a.den : Int)
def qLe (a b : QF) : Bool := a.num * (b.den : Int) ≤ b.num * (a.den : Int)

/-- Rust `f64 as usize` for the (finite) rationals arising here: truncation
toward zero, saturating at 0 for negative inputs.  (Saturation at
`usize::MAX` is irrelevant at the list lengths considered.) -/
def f64AsUsize (q : QF) : Nat := (qTrunc q).toNat

/-! ## Character helpers (ASCII classification used by both tokenizers) -/

def isAsciiAlpha (c : Char) : Bool :=
  (65 ≤ c.toNat && c.toNat ≤ 90) || (97 ≤ c.toNat && c.toNat ≤ 122)

def isAsciiDigit (c : Char) : Bool := 48 ≤ c.toNat && c.toNat ≤ 57

/-- `is_ident_start` from `formatter.rs` (also matches the lexer's
identifier-start class). -/
def is_ident_start (c : Char) : Bool := isAsciiAlpha c || c = '_'

/-- `is_ident_continue` from `formatter.rs`. -/
def is_ident_continue (c : Char) : Bool := isAsciiAlpha c || isAsciiDigit c || c = '_'

/-- The form-feed character `\u{000C}` skipped by both tokenizers. -/
def formFeed : Char := Char.ofNat 12

/-- Byte-wise lexicographic string order (Rust `Ord for String`), on
code points; agrees with UTF-8 byte order. -/
def strLt : List Char → List Char → Bool
  | [], [] => false
  | [], _ :: _ => true
  | _ :: _, [] => false
  | a :: as, b :: bs =>
    if a.toNat < b.toNat then true
    else if b.toNat < a.toNat then false
    else strLt as bs

/-! ## Formatter (`src/formatter.rs`)

The formatter has its own tokenizer that keeps comments and newlines as
first-class tokens, and a single-pass stateful renderer.  Both are ported
arm by arm; `out` is a `List Char` (append at the end = `String::push`). -/

inductive TKind where
  | lparen | rparen | lbrace | rbrace | lbracket | rbracket
  | comma | dot | semicolon | colon
  | op (s : List Char)
  | assign
  | ident (s : List Char)
  | number (s : List Char)
  | str (s : List Char)
  | keyword (s : List Char)
  | lineComment (s : List Char)
  | blockComment (s : List Char)
  | newline
deriving DecidableEq, Repr

def fmtKeywords : List (List Char) :=
  ["let", "fn", "if", "else", "while", "for", "in", "return", "true",
   "false", "null", "break", "continue"].map String.data

/-- Scanner for `/* ... */` after the opening `/*` has been consumed.
Mirrors the Rust loop `while i + 1 < len`: with exactly one character
left the loop exits and that character is *not* part of the comment. -/
def bcScan : List Char → (List Char × List Char)
  | [] => ([], [])
  | [c] => ([], [c])
  | '*' :: '/' :: rest => (['*', '/'], rest)
  | c :: rest =>
    let (t, r) := bcScan rest
    (c :: t, r)

/-- Scanner for a `"`-string after the opening quote; the `Bool` is the
`escaped` flag.  Returns the scanned text (closing quote included when
found) and the rest. -/
def strScan : List Char → Bool → (List Char × List Char)
  | [], _ => ([], [])
  | c :: rest, true =>
    let (t, r) := strScan rest false
    (c :: t, r)
  | c :: rest, false =>
    if c = '\\' then
      let (t, r) := strScan rest true
      (c :: t, r)
    else if c = '"' then ([c], rest)
    else
      let (t, r) := strScan rest false
      (c :: t, r)

def twoCharOps : List (List Char) :=
  ["<=", ">=", "==", "!=", "&&", "||", "->"].map String.data

def singleOpChars : List Char := ['+', '-', '*', '/', '%', '!', '?', '<', '>', '=']

/-- One step of `tokenize`; fuel decreases every call, and every step
consumes at least one character, so `length + 1` fuel suffices. -/
def tokenizeGo : Nat → List Char → List TKind
  | 0, _ => []
  | _ + 1, [] => []
  | fuel + 1, c :: rest =>
    if c = '\n' then .newline :: tokenizeGo fuel rest
    else if c = ' ' || c = '\t' || c = '\r' || c = formFeed then tokenizeGo fuel rest
    else if c = '/' && rest.head? = some '/' then
      let body := rest.tail.takeWhile (fun ch => !(ch = '\n'))
      let r := rest.tail.dropWhile (fun ch => !(ch = '\n'))
      .lineComment ('/' :: '/' :: body) :: tokenizeGo fuel r
    else if c = '/' && rest.head? = some '*' then
      let (t, r) := bcScan rest.tail
      .blockComment ('/' :: '*' :: t) :: tokenizeGo fuel r
    else if c = '"' then
      let (t, r) := strScan rest false
      .str ('"' :: t) :: tokenizeGo fuel r
    else if (match rest.head? with
             | some c2 => twoCharOps.contains [c, c2]
             | none => false) then
      .op [c, (rest.head?.getD ' ')] :: tokenizeGo fuel rest.tail
    else if c = '(' then .lparen :: tokenizeGo fuel rest
  else if c = ')' then .rparen :: tokenizeGo fuel rest
  else if c = '{' then .lbrace :: tokenizeGo fuel rest
  else if c = '}' then .rbrace :: tokenizeGo fuel rest
  else if c = '[' then .lbracket :: tokenizeGo fuel rest
  else if c = ']' then .rbracket :: tokenizeGo fuel rest
  else if c = ',' then .comma :: tokenizeGo fuel rest
  else if c = '.' then .dot :: tokenizeGo fuel rest
  else if c = ';' then .semicolon :: tokenizeGo fuel rest
  else if c = ':' then .colon :: tokenizeGo fuel rest
  else if singleOpChars.contains c then
    (if c = '=' then TKind.assign else TKind.op [c]) :: tokenizeGo fuel rest
  else if is_ident_start c then
    let body := rest.takeWhile is_ident_continue
    let r := rest.dropWhile is_ident_continue
    let word := c :: body
    (if fmtKeywords.contains word then TKind.keyword word else TKind.ident word) ::
      tokenizeGo fuel r
  else if isAsciiDigit c then
    let body := rest.takeWhile (fun ch => isAsciiDigit ch || ch = '.')
    let r := rest.dropWhile (fun ch => isAsciiDigit ch || ch = '.')
    .number (c :: body) :: tokenizeGo fuel r
  else .ident [c] :: tokenizeGo fuel rest

def tokenize (src : List Char) : List TKind := tokenizeGo (src.length + 1) src

structure FormatterOptions where
  indent_size : Nat
  max_blank_lines : Nat
deriving DecidableEq, Repr

def defaultOptions : FormatterOptions := ⟨2, 2⟩

structure RState where
  out : List Char
  indent : Int
  need_indent : Bool
  blanks : Nat
  prev_was_token : Bool
  prev_kind : Option TKind
  brace_inline_stack : List Bool
  bracket_depth : Int
  generic_depth : Int
  in_fn_signature : Bool
deriving Repr

def initRState : RState := ⟨[], 0, true, 0, false, none, [], 0, 0, false⟩

def write_indent (out : List Char) (indent : Int) (size : Nat) : List Char :=
  out ++ List.replicate (indent.toNat * size) ' '

def endsWithC (out : List Char) (c : Char) : Bool := out.getLast? = some c

/-- The `while out.ends_with(' ') { out.pop(); }` loop. -/
def popTrailSpaces (out : List Char) : List Char :=
  (out.reverse.dropWhile (fun c => c == ' ')).reverse

/-- The blank-collapse loop `while blanks > max && out.ends_with('\n')`
(pops one newline and decrements `blanks` per iteration). -/
def collapseBlanks (maxB : Nat) : List Char → Nat → List Char × Nat
  | out, 0 => (out, 0)
  | out, b + 1 =>
    if b + 1 > maxB && endsWithC out '\n'
    then collapseBlanks maxB out.dropLast b
    else (out, b + 1)

/-- The per-iteration "collapse blank lines beyond max" step of `render`. -/
def collapseStep (opts : FormatterOptions) (s : RState) : RState :=
  if s.need_indent && s.blanks > opts.max_blank_lines then
    let p := collapseBlanks opts.max_blank_lines s.out s.blanks
    { s with out := p.1, blanks := p.2 }
  else s

/-- The `look.next()` scan deciding whether an object literal contains a
single-line block comment before its matching `}`. -/
def lookInline : List TKind → Int → Bool
  | [], _ => false
  | t :: rest, depth =>
    match t with
    | .lbrace => lookInline rest (depth + 1)
    | .rbrace => if depth - 1 = 0 then false else lookInline rest (depth - 1)
    | .blockComment s => if !(s.contains '\n') then true else lookInline rest depth
    | _ => lookInline rest depth

/-- Interior lines of a multi-line block comment: each is emitted after a
newline and a fresh indent (this is the re-indenting the Rust code does). -/
def pushCommentTail (indent : Int) (size : Nat) : List Char → List (List Char) → List Char
  | out, [] => out
  | out, l :: rest => pushCommentTail indent size (write_indent (out ++ ['\n']) indent size ++ l) rest

def isNewlineTok : Option TKind → Bool
  | some .newline => true
  | _ => false

def prevSpacedKind : Option TKind → Bool
  | some (.ident _) | some (.number _) | some (.str _)
  | some .rparen | some .rbracket | some .rbrace => true
  | _ => false

/-- One arm of the `render` token match; `peek` is the head of the
remaining tokens (`it.peek()`), `restT` the full remaining list. -/
def renderTok (opts : FormatterOptions) (s : RState) (tok : TKind) (restT : List TKind) : RState :=
  match tok with
  | .newline =>
    let out := popTrailSpaces s.out
    { s with out := out ++ ['\n'], need_indent := true, prev_was_token := false,
             blanks := s.blanks + 1 }
  | .lineComment text =>
    let out := if s.need_indent then write_indent s.out s.indent opts.indent_size else s.out
    let out := if s.prev_was_token && !endsWithC out ' ' then out ++ [' '] else out
    { s with out := out ++ text, need_indent := false, prev_was_token := false, blanks := 0 }
  | .blockComment text =>
    let out := if s.need_indent then write_indent s.out s.indent opts.indent_size else s.out
    let hasNl := text.contains '\n'
    let out :=
      if hasNl then
        match text.splitOn '\n' with
        | [] => out
        | l0 :: ls => pushCommentTail s.indent opts.indent_size (out ++ l0) ls
      else out ++ text
    if hasNl then
      if !isNewlineTok restT.head? then
        let out := if !endsWithC out '\n' then out ++ ['\n'] else out
        { s with out := out, need_indent := true, prev_was_token := false, blanks := 1 }
      else
        { s with out := out, need_indent := true, prev_was_token := false, blanks := 0 }
    else
      let needsSp :=
        match restT.head? with
        | some (.ident _) | some (.number _) | some (.str _) | some (.keyword _) => true
        | _ => false
      let out := if needsSp && !endsWithC out ' ' && !endsWithC out '\n' then out ++ [' '] else out
      { s with out := out, need_indent := false, prev_was_token := true, blanks := 0 }
  | .rbrace =>
    let inline := s.brace_inline_stack.head?.getD false
    let stack := s.brace_inline_stack.tail
    if inline then
      let out :=
        if !endsWithC s.out ' ' && !endsWithC s.out '{' && !endsWithC s.out '\n'
        then s.out ++ [' '] else s.out
      { s with out := out ++ ['}'], brace_inline_stack := stack, need_indent := false,
               prev_was_token := true, blanks := 0 }
    else
      let out :=
        if s.need_indent then s.out
        else
          let isPrevRBrace := match s.prev_kind with | some .rbrace => true | _ => false
          let out := if isPrevRBrace && !endsWithC s.out ';' then s.out ++ [';'] else s.out
          out ++ ['\n']
      let indent := max (s.indent - 1) 0
      let out := write_indent out indent opts.indent_size ++ ['}']
      match restT.head? with
      | some .semicolon | some .newline =>
        { s with out := out, indent := indent, brace_inline_stack := stack,
                 need_indent := false, prev_was_token := true, blanks := 0 }
      | _ =>
        { s with out := out ++ ['\n'], indent := indent, brace_inline_stack := stack,
                 need_indent := true, prev_was_token := false, blanks := 1 }
  | .lbrace =>
    let out := if s.need_indent then write_indent s.out s.indent opts.indent_size else s.out
    let out :=
      if !endsWithC out ' ' && !endsWithC out '\n' && !endsWithC out '{' && !endsWithC out '('
      then out ++ [' '] else out
    let isBlockCtx :=
      (match s.prev_kind with
       | some .rparen => true
       | some (.keyword k) =>
         k = "if".data || k = "else".data || k = "while".data || k = "for".data || k = "fn".data
       | _ => false) || s.in_fn_signature
    if isBlockCtx then
      let nlFollows := isNewlineTok restT.head?
      let out := out ++ ['{']
      let out := if !nlFollows then out ++ ['\n'] else out
      { s with out := out, indent := s.indent + 1, need_indent := true, prev_was_token := false,
               blanks := 1, brace_inline_stack := false :: s.brace_inline_stack,
               in_fn_signature := false }
    else
      let hasInlineBC := lookInline restT 1
      let nlFollows := isNewlineTok restT.head?
      if hasInlineBC || nlFollows then
        let out := out ++ ['{']
        let out := if !nlFollows then out ++ ['\n'] else out
        { s with out := out, indent := s.indent + 1, need_indent := !nlFollows,
                 prev_was_token := true,
                 blanks := if !nlFollows then 1 else s.blanks,
                 brace_inline_stack := false :: s.brace_inline_stack }
      else
        { s with out := out ++ ['{', ' '], need_indent := false, prev_was_token := true,
                 blanks := 0, brace_inline_stack := true :: s.brace_inline_stack }
  | .semicolon =>
    let out := s.out ++ [';']
    let inlineBCFollows :=
      match restT.head? with
      | some (.blockComment t) => !(t.contains '\n')
      | _ => false
    let inlineLCFollows := match restT.head? with | some (.lineComment _) => true | _ => false
    let elseFollows :=
      match restT.head? with | some (.keyword k) => k = "else".data | _ => false
    let nlFollows := isNewlineTok restT.head?
    if inlineBCFollows || inlineLCFollows || elseFollows then
      { s with out := out ++ [' '], need_indent := false, prev_was_token := true, blanks := 0 }
    else if !nlFollows then
      { s with out := out ++ ['\n'], need_indent := true, prev_was_token := false, blanks := 1 }
    else
      { s with out := out }
  | .comma =>
    let out := s.out ++ [',']
    let out := if s.generic_depth ≤ 0 then out ++ [' '] else out
    { s with out := out, prev_was_token := true, blanks := 0, need_indent := false }
  | .colon =>
    { s with out := s.out ++ [':', ' '], prev_was_token := true, blanks := 0,
             need_indent := false }
  | .lparen =>
    let out := if s.need_indent then write_indent s.out s.indent opts.indent_size else s.out
    let out :=
      match s.prev_kind with
      | some (.keyword k) =>
        if k = "if".data || k = "while".data || k = "for".data then out ++ [' '] else out
      | _ => out
    { s with out := out ++ ['('], prev_was_token := true, blanks := 0 }
  | .rparen =>
    { s with out := s.out ++ [')'], prev_was_token := true, blanks := 0, need_indent := false }
  | .lbracket =>
    let out := if s.need_indent then write_indent s.out s.indent opts.indent_size else s.out
    let out :=
      match s.prev_kind with
      | some (.keyword k) =>
        if k = "in".data && !endsWithC out ' ' && !endsWithC out '\n' then out ++ [' '] else out
      | _ => out
    { s with out := out ++ ['['], bracket_depth := s.bracket_depth + 1, prev_was_token := true,
             blanks := 0, need_indent := false }
  | .rbracket =>
    { s with out := s.out ++ [']'], bracket_depth := max (s.bracket_depth - 1) 0,
             prev_was_token := true, blanks := 0, need_indent := false }
  | .dot =>
    { s with out := s.out ++ ['.'], prev_was_token := true, blanks := 0, need_indent := false }
  | .assign =>
    let out := if s.need_indent then write_indent s.out s.indent opts.indent_size else s.out
    let spaceBefore :=
      match s.prev_kind with
      | some (.ident _) | some (.number _) | some (.str _)
      | some .rparen | some .rbracket | some .rbrace | some (.op _) => true
      | _ => false
    let out := if spaceBefore && !endsWithC out ' ' && !endsWithC out '\n' then out ++ [' '] else out
    { s with out := out ++ ['=', ' '], prev_was_token := true, need_indent := false }
  | .op o =>
    let out := if s.need_indent then write_indent s.out s.indent opts.indent_size else s.out
    let isGenericOpen :=
      o = "<".data &&
        (match s.prev_kind with
         | some (.ident p) => p = "list".data || p = "map".data
         | _ => false)
    let isGenericClose := o = ">".data && s.generic_depth > 0
    let out :=
      if !(isGenericOpen || isGenericClose) && prevSpacedKind s.prev_kind &&
         !endsWithC out ' ' && !endsWithC out '\n'
      then out ++ [' '] else out
    if isGenericOpen then
      { s with out := out ++ ['<'], generic_depth := s.generic_depth + 1,
               prev_was_token := true, blanks := 0, need_indent := false }
    else if isGenericClose then
      { s with out := out ++ ['>'], generic_depth := s.generic_depth - 1,
               prev_was_token := true, blanks := 0, need_indent := false }
    else
      let out := out ++ o
      let out := if !endsWithC out ' ' && !endsWithC out '\n' then out ++ [' '] else out
      { s with out := out, prev_was_token := true, blanks := 0, need_indent := false }
  | .ident t =>
    let out := if s.need_indent then write_indent s.out s.indent opts.indent_size else s.out
    let out :=
      if prevSpacedKind s.prev_kind && !endsWithC out ' ' && !endsWithC out '\n'
      then out ++ [' '] else out
    { s with out := out ++ t, prev_was_token := true, blanks := 0, need_indent := false }
  | .number t =>
    let out := if s.need_indent then write_indent s.out s.indent opts.indent_size else s.out
    let out :=
      if prevSpacedKind s.prev_kind && !endsWithC out ' ' && !endsWithC out '\n'
      then out ++ [' '] else out
    { s with out := out ++ t, prev_was_token := true, blanks := 0, need_indent := false }
  | .str t =>
    let out := if s.need_indent then write_indent s.out s.indent opts.indent_size else s.out
    let out :=
      if prevSpacedKind s.prev_kind && !endsWithC out ' ' && !endsWithC out '\n'
      then out ++ [' '] else out
    { s with out := out ++ t, prev_was_token := true, blanks := 0, need_indent := false }
  | .keyword k =>
    let out := if s.need_indent then write_indent s.out s.indent opts.indent_size else s.out
    let spaceBefore :=
      match s.prev_kind with
      | some (.ident _) | some (.number _) | some (.str _)
      | some .rparen | some .rbracket => true
      | _ => false
    let out := if spaceBefore && !endsWithC out ' ' && !endsWithC out '\n' then out ++ [' '] else out
    let out := out ++ k
    let inFnSig := if k = "fn".data then true else s.in_fn_signature
    let out :=
      match restT.head? with
      | some .lparen => out
      | some (.ident _) | some (.number _) | some (.str _) | some (.keyword _)
      | some .lbrace =>
        if !endsWithC out ' ' && !endsWithC out '\n' then out ++ [' '] else out
      | _ => out
    { s with out := out, in_fn_signature := inFnSig, prev_was_token := true, blanks := 0,
             need_indent := false }

def renderGo (opts : FormatterOptions) : List TKind → RState → RState
  | [], s => s
  | tok :: restT, s =>
    let s1 := renderTok opts s tok restT
    let s2 := collapseStep opts s1
    renderGo opts restT { s2 with prev_kind := some tok }

/-- Final `render` step: trim trailing newlines down to exactly one. -/
def trimFinal (out : List Char) : List Char :=
  (out.reverse.dropWhile (fun c => c == '\n')).reverse ++ ['\n']

def render (toks : List TKind) (opts : FormatterOptions) : List Char :=
  trimFinal (renderGo opts toks initRState).out

/-- `format_source_with_options` from `formatter.rs`. -/
def format_source_with_options (src : List Char) (opts : FormatterOptions) : List Char :=
  render (tokenize src) opts

/-- `format_source` (default options: indent 2, max 2 blank lines). -/
def format_source (src : List Char) : List Char :=
  format_source_with_options src defaultOptions

/-! ## AST (`src/ast.rs`, reconciled)

The repository snapshot carries two revisions of the AST: `ast.rs` has
`Let {name, init}` and `Fn {params : Vec<String>, body}`, while
`parser.rs` and `typecheck.rs` build `Let {name, ty, init}` and
`Fn {params : Vec<(String, Option<TypeExpr>)>, ret, body}`.  We embed the
richer form (the one the parser produces); the interpreter ignores the
annotations, exactly as `eval.rs` does. -/

inductive TypeExpr where
  | number
  | string
  | bool
  | null
  | any
  | list (inner : TypeExpr)
  | map (inner : TypeExpr)
  | record (fields : List (String × TypeExpr))
  | func (args : List TypeExpr) (ret : TypeExpr)

inductive Lit where
  | num (n : QF)
  | bool (b : Bool)
  | str (s : String)
  | null

inductive BinOp where
  | add | sub | mul | div | mod
  | eq | ne | lt | le | gt | ge
  | and | or
deriving DecidableEq, Repr

inductive UnOp where
  | neg
  | not
deriving DecidableEq, Repr

mutual
inductive Expr where
  | lit (l : Lit)
  | var (name : String)
  | assign (name : String) (value : Expr)
  | binary (left : Expr) (op : BinOp) (right : Expr)
  | unary (op : UnOp) (e : Expr)
  | call (callee : Expr) (args : List Expr)
  | fn (params : List (String × Option TypeExpr)) (ret : Option TypeExpr) (body : List Stmt)
  | listE (items : List Expr)
  | mapE (props : List (String × Expr))
  | index (target : Expr) (idx : Expr)
  | field (target : Expr) (name : String)
inductive Stmt where
  | letD (name : String) (ty : Option TypeExpr) (init : Expr)
  | exprS (e : Expr)
  | block (b : List Stmt)
  | ifS (cond : Expr) (thenB : Stmt) (elseB : Option Stmt)
  | whileS (cond : Expr) (body : Stmt)
  | forS (name : String) (iter : Expr) (body : Stmt)
  | ret (e : Option Expr)
  | brk
  | cont
end

structure Program where
  statements : List Stmt

/-! ## Lexer (`src/lexer.rs`)

The parser's lexer (logos-based in Rust) discards comments and newlines
but advances line/column counters.  Quirks are reproduced faithfully: a
token's own characters do not advance the column (only skipped characters
between token spans are counted), a maximal `\n+` run bumps the line
counter once, and unlexable bytes are silently dropped. -/

inductive TokenKind where
  | leftParen | rightParen | leftBrace | rightBrace | leftBracket | rightBracket
  | comma | dot | semicolon | colon
  | plus | minus | star | slash | percent | bang | question | less | greater | assign
  | lessEqual | greaterEqual | equalEqual | bangEqual | andAnd | orOr | arrow
  | identifier (s : String)
  | string (s : String)
  | number (n : QF)
  | kLet | kFn | kIf | kElse | kWhile | kFor | kIn | kReturn
  | kTrue | kFalse | kNull | kBreak | kContinue
deriving DecidableEq, Repr

structure Token where
  kind : TokenKind
  line : Nat
  col : Nat
deriving DecidableEq, Repr

/-- `unescape` from `lexer.rs`: `\n \t \" \\ \r` decoded, any other escape
passed through literally, a trailing lone backslash kept. -/
def unescape : List Char → List Char
  | [] => []
  | '\\' :: rest =>
    match rest with
    | 'n' :: r => '\n' :: unescape r
    | 't' :: r => '\t' :: unescape r
    | '"' :: r => '"' :: unescape r
    | '\\' :: r => '\\' :: unescape r
    | 'r' :: r => '\r' :: unescape r
    | other :: r => '\\' :: other :: unescape r
    | [] => ['\\']
  | c :: rest => c :: unescape rest

def digitsVal : List Char → Nat → Nat
  | [], acc => acc
  | c :: r, acc => digitsVal r (acc * 10 + (c.toNat - 48))

/-- The exact rational value of the decimal literal `ip.fp` (the Rust code
parses it as `f64`; every literal in the programs considered here is
exactly representable, where the two agree). -/
def decimalQF (ip fp : List Char) : QF :=
  qmk ((digitsVal ip 0 : Int) * ((10 : Int) ^ fp.length) + (digitsVal fp 0 : Int))
      ((10 : Int) ^ fp.length)

/-- Closed-block-comment scan for the lexer regex
`/\*([^*]|\*+[^*/])*\*+/` (after the opening `/*`): text up to and
including the first `*/`, or `none` when unterminated. -/
def bcClosed : List Char → Option (List Char × List Char)
  | [] => none
  | '*' :: '/' :: rest => some (['*', '/'], rest)
  | c :: rest =>
    match bcClosed rest with
    | some (t, r) => some (c :: t, r)
    | none => none

/-- Closed-string scan for the lexer regex `\"([^\\\n\"]|\\.)*\"` (after
the opening quote): the inner text (closing quote excluded) and the rest,
or `none` when no closing quote occurs before a raw newline / EOF. -/
def strClosed : List Char → Option (List Char × List Char)
  | [] => none
  | '\n' :: _ => none
  | '"' :: rest => some ([], rest)
  | '\\' :: c2 :: rest =>
    if c2 = '\n' then none
    else
      match strClosed rest with
      | some (t, r) => some ('\\' :: c2 :: t, r)
      | none => none
  | ['\\'] => none
  | c :: rest =>
    match strClosed rest with
    | some (t, r) => some (c :: t, r)
    | none => none

def keywordOf (s : String) : TokenKind :=
  if s = "let" then .kLet
  else if s = "fn" then .kFn
  else if s = "if" then .kIf
  else if s = "else" then .kElse
  else if s = "while" then .kWhile
  else if s = "for" then .kFor
  else if s = "in" then .kIn
  else if s = "return" then .kReturn
  else if s = "true" then .kTrue
  else if s = "false" then .kFalse
  else if s = "null" then .kNull
  else if s = "break" then .kBreak
  else if s = "continue" then .kContinue
  else .identifier s

def twoCharKind (c1 c2 : Char) : Option TokenKind :=
  if c1 = '<' && c2 = '=' then some .lessEqual
  else if c1 = '>' && c2 = '=' then some .greaterEqual
  else if c1 = '=' && c2 = '=' then some .equalEqual
  else if c1 = '!' && c2 = '=' then some .bangEqual
  else if c1 = '&' && c2 = '&' then some .andAnd
  else if c1 = '|' && c2 = '|' then some .orOr
  else if c1 = '-' && c2 = '>' then some .arrow
  else none

def singleCharKind (c : Char) : Option TokenKind :=
  if c = '(' then some .leftParen
  else if c = ')' then some .rightParen
  else if c = '{' then some .leftBrace
  else if c = '}' then some .rightBrace
  else if c = '[' then some .leftBracket
  else if c = ']' then some .rightBracket
  else if c = ',' then some .comma
  else if c = '.' then some .dot
  else if c = ';' then some .semicolon
  else if c = ':' then some .colon
  else if c = '+' then some .plus
  else if c = '-' then some .minus
  else if c = '*' then some .star
  else if c = '/' then some .slash
  else if c = '%' then some .percent
  else if c = '!' then some .bang
  else if c = '?' then some .question
  else if c = '<' then some .less
  else if c = '>' then some .greater
  else if c = '=' then some .assign
  else none

/-- Count line/column over a list of characters (the per-character update
the lexer applies to skipped ranges and to block-comment spans). -/
def advanceLineCol : List Char → Nat → Nat → Nat × Nat
  | [], line, col => (line, col)
  | c :: rest, line, col =>
    if c = '\n' then advanceLineCol rest (line + 1) 1
    else advanceLineCol rest line (col + 1)

/-- The lexer loop.  Each step consumes at least one character, so
`length + 1` fuel suffices.  For an unterminated block comment or string
(where the logos regex fails and an error token is produced) the offending
character is dropped without counting — an approximation of logos' error
spans that no input considered here exercises. -/
def lexGo : Nat → List Char → Nat → Nat → List Token
  | 0, _, _, _ => []
  | _ + 1, [], _, _ => []
  | fuel + 1, c :: rest, line, col =>
    if c = '\n' then
      lexGo fuel (rest.dropWhile (fun ch => ch = '\n')) (line + 1) 1
    else if c = ' ' || c = '\t' || c = '\r' || c = formFeed then
      lexGo fuel rest line (col + 1)
    else if c = '/' && rest.head? = some '/' then
      lexGo fuel (rest.tail.dropWhile (fun ch => !(ch = '\n'))) line col
    else if c = '/' && rest.head? = some '*' then
      match bcClosed rest.tail with
      | some (t, r) =>
        let lc := advanceLineCol ('/' :: '*' :: t) line col
        lexGo fuel r lc.1 lc.2
      | none => lexGo fuel rest line col
    else if c = '"' then
      match strClosed rest with
      | some (t, r) =>
        ⟨.string (String.mk (unescape t)), line, col⟩ :: lexGo fuel r line col
      | none => lexGo fuel rest line col
    else if (match rest.head? with
             | some c2 => (twoCharKind c c2).isSome
             | none => false) then
      ⟨(twoCharKind c (rest.head?.getD ' ')).getD .assign, line, col⟩ ::
        lexGo fuel rest.tail line col
    else
      match singleCharKind c with
      | some k => ⟨k, line, col⟩ :: lexGo fuel rest line col
      | none =>
        if is_ident_start c then
          let body := rest.takeWhile is_ident_continue
          let r := rest.dropWhile is_ident_continue
          ⟨keywordOf (String.mk (c :: body)), line, col⟩ :: lexGo fuel r line col
        else if isAsciiDigit c then
          let ip := c :: rest.takeWhile isAsciiDigit
          let r1 := rest.dropWhile isAsciiDigit
          match r1 with
          | '.' :: d :: _ =>
            if isAsciiDigit d then
              let fp := r1.tail.takeWhile isAsciiDigit
              let r2 := r1.tail.dropWhile isAsciiDigit
              ⟨.number (decimalQF ip fp), line, col⟩ :: lexGo fuel r2 line col
            else ⟨.number (decimalQF ip []), line, col⟩ :: lexGo fuel r1 line col
          | _ => ⟨.number (decimalQF ip []), line, col⟩ :: lexGo fuel r1 line col
        else lexGo fuel rest line col

def lex (src : String) : List Token := lexGo (src.data.length + 1) src.data 1 1

/-! ## Parser (`src/parser.rs`)

Recursive descent over the token vector, threaded as `(tokens, pos)`.
All recursive productions carry fuel; `ParseError.fuelOut` marks fuel
exhaustion and never occurs at the fuel values used below. -/

inductive ParseError where
  | eof
  | unexpected (line col : Nat)
  | expected (what : String) (line col : Nat)
  | fuelOut
deriving DecidableEq, Repr

/-- The `thiserror`-derived `Display` of `ParseError`. -/
def parseErrorMessage : ParseError → String
  | .eof => "unexpected end of input"
  | .unexpected line col =>
    "unexpected token at line " ++ toString line ++ ", col " ++ toString col
  | .expected what line col =>
    "expected " ++ what ++ " at line " ++ toString line ++ ", col " ++ toString col
  | .fuelOut => "parser fuel exhausted"

structure PState where
  tokens : List Token
  pos : Nat
deriving DecidableEq, Repr

def PState.isAtEnd (p : PState) : Bool := decide (p.tokens.length ≤ p.pos)

def PState.peek (p : PState) : Option Token := p.tokens.get? p.pos

def PState.advance (p : PState) : PState :=
  if p.isAtEnd then p else { p with pos := p.pos + 1 }

/-- `kind_eq`: discriminant equality (payloads of `Identifier`, `String`,
`Number` ignored). -/
def kindEq : TokenKind → TokenKind → Bool
  | .identifier _, .identifier _ => true
  | .string _, .string _ => true
  | .number _, .number _ => true
  | a, b => a == b

def PState.check (p : PState) (k : TokenKind) : Bool :=
  match p.peek with
  | some t => kindEq t.kind k
  | none => false

def PState.peekNextIsIdentifier (p : PState) : Bool :=
  if p.tokens.length ≤ p.pos + 1 then false
  else
    match p.tokens.get? (p.pos + 1) with
    | some ⟨.identifier _, _, _⟩ => true
    | _ => false

def errExpected (p : PState) (what : String) : ParseError :=
  match p.peek with
  | some t => .expected what t.line t.col
  | none => .eof

def errUnexpected (p : PState) : ParseError :=
  match p.peek with
  | some t => .unexpected t.line t.col
  | none => .eof

def consume (p : PState) (k : TokenKind) (what : String) : Except ParseError (Token × PState) :=
  if p.check k then
    match p.peek with
    | some t => .ok (t, p.advance)
    | none => .error (errExpected p what)
  else .error (errExpected p what)

def consumeIdent (p : PState) (what : String) : Except ParseError (String × PState) :=
  match p.peek with
  | some ⟨.identifier n, _, _⟩ => .ok (n, p.advance)
  | _ => .error (errExpected p what)

def optionalTok (p : PState) (k : TokenKind) : PState :=
  if p.check k then p.advance else p

/-- `looks_like_map_literal`: at a `{`, treat it as a map literal when the
token immediately inside is an identifier followed by `:` (and both of
those tokens exist, per the `i + 1 < len` bound). -/
def looksLikeMapLiteral (p : PState) : Bool :=
  if !(p.check .leftBrace) then false
  else
    let i := p.pos + 1
    if i + 1 < p.tokens.length then
      match p.tokens.get? i, p.tokens.get? (i + 1) with
      | some ⟨.identifier _, _, _⟩, some ⟨.colon, _, _⟩ => true
      | _, _ => false
    else false

/-- The `_ => {}` tail of `parse_type`: keywords like `null` still allowed,
otherwise "expected type". -/
def parseTypeTail (p : PState) : Except ParseError (TypeExpr × PState) :=
  if p.check .kNull then .ok (.null, p.advance)
  else .error (errExpected p "type")

mutual

def parseProgramGo : Nat → PState → Except ParseError (List Stmt × PState)
  | 0, _ => .error .fuelOut
  | fuel + 1, p =>
    if !p.isAtEnd then do
      let (s, p) ← declaration fuel p
      let (rest, p) ← parseProgramGo fuel p
      pure (s :: rest, p)
    else pure ([], p)

def declaration : Nat → PState → Except ParseError (Stmt × PState)
  | 0, _ => .error .fuelOut
  | fuel + 1, p =>
    if p.check .kLet then letDecl fuel p.advance
    else if p.check .kFn && p.peekNextIsIdentifier then fnDecl fuel p.advance
    else statement fuel p

def letDecl : Nat → PState → Except ParseError (Stmt × PState)
  | 0, _ => .error .fuelOut
  | fuel + 1, p => do
    let (name, p) ← consumeIdent p "identifier"
    if !(p.check .colon) then throw (errExpected p ": type annotation")
    else do
      let p := p.advance
      let (ty, p) ← parseType fuel p
      let (_, p) ← consume p .assign "="
      let (init, p) ← expression fuel p
      pure (Stmt.letD name (some ty) init, optionalTok p .semicolon)

def fnDecl : Nat → PState → Except ParseError (Stmt × PState)
  | 0, _ => .error .fuelOut
  | fuel + 1, p => do
    let (name, p) ← consumeIdent p "function name"
    let (sig, p) ← functionLiteral fuel p
    let ty :=
      if sig.1.all (fun pr => pr.2.isSome) && sig.2.1.isSome then
        some (TypeExpr.func (sig.1.map (fun pr => pr.2.getD .any)) (sig.2.1.getD .any))
      else none
    pure (Stmt.letD name ty (Expr.fn sig.1 sig.2.1 sig.2.2), p)

def statement : Nat → PState → Except ParseError (Stmt × PState)
  | 0, _ => .error .fuelOut
  | fuel + 1, p =>
    if p.check .kIf then ifStmt fuel p.advance
    else if p.check .kWhile then whileStmt fuel p.advance
    else if p.check .kFor then forStmt fuel p.advance
    else if p.check .leftBrace && !looksLikeMapLiteral p then do
      let (b, p) ← blockStmts fuel p.advance
      pure (Stmt.block b, p)
    else if p.check .kReturn then
      let p := p.advance
      if p.check .semicolon then pure (Stmt.ret none, p.advance)
      else do
        let (v, p) ← expression fuel p
        pure (Stmt.ret (some v), optionalTok p .semicolon)
    else if p.check .kBreak then pure (Stmt.brk, optionalTok p.advance .semicolon)
    else if p.check .kContinue then pure (Stmt.cont, optionalTok p.advance .semicolon)
    else do
      let (e, p) ← expression fuel p
      pure (Stmt.exprS e, optionalTok p .semicolon)

def blockStmts : Nat → PState → Except ParseError (List Stmt × PState)
  | 0, _ => .error .fuelOut
  | fuel + 1, p =>
    if !(p.check .rightBrace) && !p.isAtEnd then do
      let (s, p) ← declaration fuel p
      let (rest, p) ← blockStmts fuel p
      pure (s :: rest, p)
    else do
      let (_, p) ← consume p .rightBrace "\x7d"
      pure ([], p)

def ifStmt : Nat → PState → Except ParseError (Stmt × PState)
  | 0, _ => .error .fuelOut
  | fuel + 1, p => do
    let (_, p) ← consume p .leftParen "("
    let (cond, p) ← expression fuel p
    let (_, p) ← consume p .rightParen ")"
    let (thenB, p) ← statement fuel p
    if p.check .kElse then do
      let (e, p) ← statement fuel p.advance
      pure (Stmt.ifS cond thenB (some e), p)
    else pure (Stmt.ifS cond thenB none, p)

def whileStmt : Nat → PState → Except ParseError (Stmt × PState)
  | 0, _ => .error .fuelOut
  | fuel + 1, p => do
    let (_, p) ← consume p .leftParen "("
    let (cond, p) ← expression fuel p
    let (_, p) ← consume p .rightParen ")"
    let (body, p) ← statement fuel p
    pure (Stmt.whileS cond body, p)

def forStmt : Nat → PState → Except ParseError (Stmt × PState)
  | 0, _ => .error .fuelOut
  | fuel + 1, p => do
    let (_, p) ← consume p .leftParen "("
    let (name, p) ← consumeIdent p "loop variable"
    let (_, p) ← consume p .kIn "in"
    let (iter, p) ← expression fuel p
    let (_, p) ← consume p .rightParen ")"
    let (body, p) ← statement fuel p
    pure (Stmt.forS name iter body, p)

def expression : Nat → PState → Except ParseError (Expr × PState)
  | 0, _ => .error .fuelOut
  | fuel + 1, p => assignmentE fuel p

def assignmentE : Nat → PState → Except ParseError (Expr × PState)
  | 0, _ => .error .fuelOut
  | fuel + 1, p => do
    let (e, p) ← orE fuel p
    if p.check .assign then do
      let (v, p) ← assignmentE fuel p.advance
      match e with
      | Expr.var name => pure (Expr.assign name v, p)
      | _ => throw (errExpected p "assignable expression")
    else pure (e, p)

def orE : Nat → PState → Except ParseError (Expr × PState)
  | 0, _ => .error .fuelOut
  | fuel + 1, p => do
    let (e, p) ← andE fuel p
    orLoop fuel e p

def orLoop : Nat → Expr → PState → Except ParseError (Expr × PState)
  | 0, _, _ => .error .fuelOut
  | fuel + 1, e, p =>
    if p.check .orOr then do
      let (r, p) ← andE fuel p.advance
      orLoop fuel (Expr.binary e .or r) p
    else pure (e, p)

def andE : Nat → PState → Except ParseError (Expr × PState)
  | 0, _ => .error .fuelOut
  | fuel + 1, p => do
    let (e, p) ← equalityE fuel p
    andLoop fuel e p

def andLoop : Nat → Expr → PState → Except ParseError (Expr × PState)
  | 0, _, _ => .error .fuelOut
  | fuel + 1, e, p =>
    if p.check .andAnd then do
      let (r, p) ← equalityE fuel p.advance
      andLoop fuel (Expr.binary e .and r) p
    else pure (e, p)

def equalityE : Nat → PState → Except ParseError (Expr × PState)
  | 0, _ => .error .fuelOut
  | fuel + 1, p => do
    let (e, p) ← comparisonE fuel p
    eqLoop fuel e p

def eqLoop : Nat → Expr → PState → Except ParseError (Expr × PState)
  | 0, _, _ => .error .fuelOut
  | fuel + 1, e, p =>
    if p.check .equalEqual then do
      let (r, p) ← comparisonE fuel p.advance
      eqLoop fuel (Expr.binary e .eq r) p
    else if p.check .bangEqual then do
      let (r, p) ← comparisonE fuel p.advance
      eqLoop fuel (Expr.binary e .ne r) p
    else pure (e, p)

def comparisonE : Nat → PState → Except ParseError (Expr × PState)
  | 0, _ => .error .fuelOut
  | fuel + 1, p => do
    let (e, p) ← termE fuel p
    cmpLoop fuel e p

def cmpLoop : Nat → Expr → PState → Except ParseError (Expr × PState)
  | 0, _, _ => .error .fuelOut
  | fuel + 1, e, p =>
    if p.check .less then do
      let (r, p) ← termE fuel p.advance
      cmpLoop fuel (Expr.binary e .lt r) p
    else if p.check .lessEqual then do
      let (r, p) ← termE fuel p.advance
      cmpLoop fuel (Expr.binary e .le r) p
    else if p.check .greater then do
      let (r, p) ← termE fuel p.advance
      cmpLoop fuel (Expr.binary e .gt r) p
    else if p.check .greaterEqual then do
      let (r, p) ← termE fuel p.advance
      cmpLoop fuel (Expr.binary e .ge r) p
    else pure (e, p)

def termE : Nat → PState → Except ParseError (Expr × PState)
  | 0, _ => .error .fuelOut
  | fuel + 1, p => do
    let (e, p) ← factorE fuel p
    termLoop fuel e p

def termLoop : Nat → Expr → PState → Except ParseError (Expr × PState)
  | 0, _, _ => .error .fuelOut
  | fuel + 1, e, p =>
    if p.check .plus then do
      let (r, p) ← factorE fuel p.advance
      termLoop fuel (Expr.binary e .add r) p
    else if p.check .minus then do
      let (r, p) ← factorE fuel p.advance
      termLoop fuel (Expr.binary e .sub r) p
    else pure (e, p)

def factorE : Nat → PState → Except ParseError (Expr × PState)
  | 0, _ => .error .fuelOut
  | fuel + 1, p => do
    let (e, p) ← unaryE fuel p
    factorLoop fuel e p

def factorLoop : Nat → Expr → PState → Except ParseError (Expr × PState)
  | 0, _, _ => .error .fuelOut
  | fuel + 1, e, p =>
    if p.check .star then do
      let (r, p) ← unaryE fuel p.advance
      factorLoop fuel (Expr.binary e .mul r) p
    else if p.check .slash then do
      let (r, p) ← unaryE fuel p.advance
      factorLoop fuel (Expr.binary e .div r) p
    else if p.check .percent then do
      let (r, p) ← unaryE fuel p.advance
      factorLoop fuel (Expr.binary e .mod r) p
    else pure (e, p)

def unaryE : Nat → PState → Except ParseError (Expr × PState)
  | 0, _ => .error .fuelOut
  | fuel + 1, p =>
    if p.check .bang then do
      let (e, p) ← unaryE fuel p.advance
      pure (Expr.unary .not e, p)
    else if p.check .minus then do
      let (e, p) ← unaryE fuel p.advance
      pure (Expr.unary .neg e, p)
    else callE fuel p

def callE : Nat → PState → Except ParseError (Expr × PState)
  | 0, _ => .error .fuelOut
  | fuel + 1, p => do
    let (e, p) ← primaryE fuel p
    callLoop fuel e p

def callLoop : Nat → Expr → PState → Except ParseError (Expr × PState)
  | 0, _, _ => .error .fuelOut
  | fuel + 1, e, p =>
    if p.check .leftParen then
      let p := p.advance
      if !(p.check .rightParen) then do
        let (args, p) ← argsLoop fuel p
        let (_, p) ← consume p .rightParen ")"
        callLoop fuel (Expr.call e args) p
      else do
        let (_, p) ← consume p .rightParen ")"
        callLoop fuel (Expr.call e []) p
    else if p.check .leftBracket then do
      let (idx, p) ← expression fuel p.advance
      let (_, p) ← consume p .rightBracket "]"
      callLoop fuel (Expr.index e idx) p
    else if p.check .dot then do
      let (n, p) ← consumeIdent p.advance "field name"
      callLoop fuel (Expr.field e n) p
    else pure (e, p)

def argsLoop : Nat → PState → Except ParseError (List Expr × PState)
  | 0, _ => .error .fuelOut
  | fuel + 1, p => do
    let (a, p) ← expression fuel p
    if p.check .comma then do
      let (rest, p) ← argsLoop fuel p.advance
      pure (a :: rest, p)
    else pure ([a], p)

def primaryE : Nat → PState → Except ParseError (Expr × PState)
  | 0, _ => .error .fuelOut
  | fuel + 1, p =>
    if p.check .kTrue then pure (Expr.lit (.bool true), p.advance)
    else if p.check .kFalse then pure (Expr.lit (.bool false), p.advance)
    else if p.check .kNull then pure (Expr.lit .null, p.advance)
    else
      match p.peek with
      | some ⟨.number n, _, _⟩ => pure (Expr.lit (.num n), p.advance)
      | some ⟨.string s, _, _⟩ => pure (Expr.lit (.str s), p.advance)
      | some ⟨.identifier _, _, _⟩ => do
        let (n, p) ← consumeIdent p "identifier"
        pure (Expr.var n, p)
      | _ =>
        if p.check .leftParen then do
          let (e, p) ← expression fuel p.advance
          let (_, p) ← consume p .rightParen ")"
          pure (e, p)
        else if p.check .leftBracket then
          let p := p.advance
          if !(p.check .rightBracket) then do
            let (items, p) ← argsLoop fuel p
            let (_, p) ← consume p .rightBracket "]"
            pure (Expr.listE items, p)
          else do
            let (_, p) ← consume p .rightBracket "]"
            pure (Expr.listE [], p)
        else if p.check .leftBrace then
          let p := p.advance
          if !(p.check .rightBrace) then do
            let (props, p) ← mapPropsLoop fuel p
            let (_, p) ← consume p .rightBrace "\x7d"
            pure (Expr.mapE props, p)
          else do
            let (_, p) ← consume p .rightBrace "\x7d"
            pure (Expr.mapE [], p)
        else if p.check .kFn then do
          let (sig, p) ← functionLiteral fuel p.advance
          pure (Expr.fn sig.1 sig.2.1 sig.2.2, p)
        else throw (errUnexpected p)

def mapPropsLoop : Nat → PState → Except ParseError (List (String × Expr) × PState)
  | 0, _ => .error .fuelOut
  | fuel + 1, p => do
    let (key, p) ← consumeIdent p "map key"
    let (_, p) ← consume p .colon ":"
    let (v, p) ← expression fuel p
    if p.check .comma then do
      let (rest, p) ← mapPropsLoop fuel p.advance
      pure ((key, v) :: rest, p)
    else pure ([(key, v)], p)

def functionLiteral :
    Nat → PState →
    Except ParseError ((List (String × Option TypeExpr) × Option TypeExpr × List Stmt) × PState)
  | 0, _ => .error .fuelOut
  | fuel + 1, p => do
    let (_, p) ← consume p .leftParen "("
    let (params, p) ←
      if !(p.check .rightParen) then paramsLoop fuel p
      else pure ([], p)
    let (_, p) ← consume p .rightParen ")"
    let (ret, p) ←
      if p.check .arrow then do
        let (t, p) ← parseType fuel p.advance
        pure (some t, p)
      else pure (none, p)
    let (_, p) ← consume p .leftBrace "\x7b"
    let (body, p) ← blockStmts fuel p
    pure ((params, ret, body), p)

def paramsLoop : Nat → PState → Except ParseError (List (String × Option TypeExpr) × PState)
  | 0, _ => .error .fuelOut
  | fuel + 1, p => do
    let (pname, p) ← consumeIdent p "parameter name"
    let (pty, p) ←
      if p.check .colon then do
        let (t, p) ← parseType fuel p.advance
        pure (some t, p)
      else pure ((none : Option TypeExpr), p)
    if p.check .comma then do
      let (rest, p) ← paramsLoop fuel p.advance
      pure ((pname, pty) :: rest, p)
    else pure ([(pname, pty)], p)

def parseType : Nat → PState → Except ParseError (TypeExpr × PState)
  | 0, _ => .error .fuelOut
  | fuel + 1, p =>
    if p.check .kFn then do
      let p := p.advance
      let (_, p) ← consume p .leftParen "("
      let (args, p) ←
        if !(p.check .rightParen) then typeArgsLoop fuel p
        else pure ([], p)
      let (_, p) ← consume p .rightParen ")"
      let (_, p) ← consume p .arrow "->"
      let (retT, p) ← parseType fuel p
      pure (TypeExpr.func args retT, p)
    else
      match p.peek with
      | some ⟨.identifier name, _, _⟩ =>
        if name = "number" then pure (TypeExpr.number, p.advance)
        else if name = "string" then pure (TypeExpr.string, p.advance)
        else if name = "bool" then pure (TypeExpr.bool, p.advance)
        else if name = "null" then pure (TypeExpr.null, p.advance)
        else if name = "any" then pure (TypeExpr.any, p.advance)
        else if name = "list" then do
          let p := p.advance
          let (_, p) ← consume p .less "<"
          let (inner, p) ← parseType fuel p
          let (_, p) ← consume p .greater ">"
          pure (TypeExpr.list inner, p)
        else if name = "map" then do
          let p := p.advance
          let (_, p) ← consume p .less "<"
          let (inner, p) ← parseType fuel p
          let (_, p) ← consume p .greater ">"
          pure (TypeExpr.map inner, p)
        else if name = "record" then do
          let p := p.advance
          let (_, p) ← consume p .leftBrace "\x7b"
          let (fields, p) ←
            if !(p.check .rightBrace) then recordFieldsLoop fuel p
            else pure ([], p)
          let (_, p) ← consume p .rightBrace "\x7d"
          pure (TypeExpr.record fields, p)
        else parseTypeTail p
      | _ => parseTypeTail p

def typeArgsLoop : Nat → PState → Except ParseError (List TypeExpr × PState)
  | 0, _ => .error .fuelOut
  | fuel + 1, p => do
    let (t, p) ← parseType fuel p
    if p.check .comma then do
      let (rest, p) ← typeArgsLoop fuel p.advance
      pure (t :: rest, p)
    else pure ([t], p)

def recordFieldsLoop : Nat → PState → Except ParseError (List (String × TypeExpr) × PState)
  | 0, _ => .error .fuelOut
  | fuel + 1, p => do
    let (name, p) ← consumeIdent p "identifier"
    let (_, p) ← consume p .colon ":"
    let (fty, p) ← parseType fuel p
    if p.check .comma then do
      let (rest, p) ← recordFieldsLoop fuel p.advance
      pure ((name, fty) :: rest, p)
    else pure ([(name, fty)], p)

end

/-- `Parser::new(src).parse_program()`. -/
def parse_program (fuel : Nat) (src : String) : Except ParseError Program :=
  match parseProgramGo fuel ⟨lex src, 0⟩ with
  | .ok (stmts, _) => .ok ⟨stmts⟩
  | .error e => .error e

/-! ## Type checker: the semantic `Type` lattice and `is_compatible`
(`src/typecheck.rs`, lines 5–15 and 434–444) -/

inductive Ty where
  | number
  | string
  | bool
  | null
  | list (inner : Ty)
  | map (inner : Ty)
  | func (params : List Ty) (ret : Ty)
  | any

mutual

/-- Structural equality on `Type` (the `#[derive(PartialEq)]` `==`). -/
def tyBeq : Ty → Ty → Bool
  | .number, .number => true
  | .string, .string => true
  | .bool, .bool => true
  | .null, .null => true
  | .any, .any => true
  | .list a, .list b => tyBeq a b
  | .map a, .map b => tyBeq a b
  | .func as1 r1, .func as2 r2 => tyListBeq as1 as2 && tyBeq r1 r2
  | _, _ => false

def tyListBeq : List Ty → List Ty → Bool
  | [], [] => true
  | a :: as1, b :: bs1 => tyBeq a b && tyListBeq as1 bs1
  | _, _ => false

end

/-- `is_compatible(a, b)` from `typecheck.rs`. -/
def is_compatible (a b : Ty) : Bool :=
  if tyBeq a b || tyBeq b .any || tyBeq a .any then true
  else
    match a, b with
    | .list x, .list y => is_compatible x y
    | .map x, .map y => is_compatible x y
    | .null, _ => true
    | _, _ => false

/-! ## Values and environments (`src/value.rs`, `src/env.rs`)

`EnvRef = Rc<RefCell<Env>>` becomes a `Nat` index into an explicit heap of
frames; cloning a ref copies the index, `borrow_mut` mutation updates the
heap slot, so aliasing between the interpreter's active frame and captured
closure frames behaves exactly as in the source. -/

mutual
inductive Value where
  | number (n : QF)
  | bool (b : Bool)
  | str (s : String)
  | null
  | list (items : List Value)
  | map (entries : List (String × Value))
  | function (f : Func)
inductive Func where
  | user (params : List (String × Option TypeExpr)) (body : List Stmt) (env : Nat)
  | native (name : String)
end

/-- `BTreeMap::insert`: sorted-by-key association list, replacing an
existing binding. -/
def btInsert : List (String × Value) → String → Value → List (String × Value)
  | [], k, v => [(k, v)]
  | (k', v') :: rest, k, v =>
    if k = k' then (k, v) :: rest
    else if strLt k.data k'.data then (k, v) :: (k', v') :: rest
    else (k', v') :: btInsert rest k v

/-- `BTreeMap::get`. -/
def btGet : List (String × Value) → String → Option Value
  | [], _ => none
  | (k', v') :: rest, k => if k = k' then some v' else btGet rest k

structure Env where
  parent : Option Nat
  values : List (String × Value)

structure InterpState where
  heap : List Env
  env : Nat

/-- `Env::new_global()` as used by `Interpreter::with_host`, except that
the standard-library bindings installed by `install_std` are omitted: the
programs examined below never reference them, and a binding that is never
looked up cannot influence evaluation. -/
def initState : InterpState := ⟨[⟨none, []⟩], 0⟩

/-- `Env::child_of(parent)`: allocate a fresh frame; returns the new state
and the fresh frame's ref. -/
def allocChild (st : InterpState) (parent : Nat) : InterpState × Nat :=
  ({ st with heap := st.heap ++ [⟨some parent, []⟩] }, st.heap.length)

/-- `env.borrow_mut().define(name, v)` on the frame `i`. -/
def defineAt (st : InterpState) (i : Nat) (name : String) (v : Value) : InterpState :=
  match st.heap.get? i with
  | some e => { st with heap := st.heap.set i { e with values := btInsert e.values name v } }
  | none => st

/-- `Env::get`: walk the parent chain.  Parent indices strictly decrease
(children are always allocated after their parents), so `heap.length + 1`
fuel always suffices. -/
def envGetVar : Nat → List Env → Nat → String → Option Value
  | 0, _, _, _ => none
  | fuel + 1, heap, i, name =>
    match heap.get? i with
    | none => none
    | some e =>
      match btGet e.values name with
      | some v => some v
      | none =>
        match e.parent with
        | some pr => envGetVar fuel heap pr name
        | none => none

def stateGetVar (st : InterpState) (name : String) : Option Value :=
  envGetVar (st.heap.length + 1) st.heap st.env name

/-- `Env::assign`: overwrite where the name already exists, else recurse
into the parent; `Err` when no enclosing frame defines it. -/
def envAssignVar : Nat → List Env → Nat → String → Value → Except String (List Env)
  | 0, _, _, name, _ => .error ("Undefined variable '" ++ name ++ "'")
  | fuel + 1, heap, i, name, v =>
    match heap.get? i with
    | none => .error ("Undefined variable '" ++ name ++ "'")
    | some e =>
      if (btGet e.values name).isSome then
        .ok (heap.set i { e with values := btInsert e.values name v })
      else
        match e.parent with
        | some pr => envAssignVar fuel heap pr name v
        | none => .error ("Undefined variable '" ++ name ++ "'")

/-! ## Interpreter (`src/eval.rs`) -/

inductive RuntimeError where
  | msg (s : String)
  | fuelOut
deriving DecidableEq, Repr

/-- `Display for Value` for integral numbers (`trim_float` prints an
`f64` with no fractional digits as a bare integer).  Non-integral numbers
are rendered as `num/den` — an approximation of Rust's shortest-decimal
float formatting that no program considered here observes. -/
def numberDisplay (q : QF) : String :=
  if q.den = 1 then toString q.num else toString q.num ++ "/" ++ toString q.den

mutual
def valueDisplay : Value → String
  | .number n => numberDisplay n
  | .bool b => if b then "true" else "false"
  | .str s => "\"" ++ s ++ "\""
  | .null => "null"
  | .list v => "[" ++ String.intercalate ", " (valueListDisplay v) ++ "]"
  | .map m => "\x7b" ++ String.intercalate ", " (valueMapDisplay m) ++ "\x7d"
  | .function _ => "<fn>"

def valueListDisplay : List Value → List String
  | [] => []
  | v :: rest => valueDisplay v :: valueListDisplay rest

def valueMapDisplay : List (String × Value) → List String
  | [] => []
  | (k, v) :: rest => (k ++ ": " ++ valueDisplay v) :: valueMapDisplay rest
end

/-- `Value::truthy`. -/
def truthy : Value → Bool
  | .bool b => b
  | .null => false
  | .number n => !(n == qZero)
  | .str s => !s.isEmpty
  | .list v => !v.isEmpty
  | .map m => !m.isEmpty
  | .function _ => true

/-- `eq` from `eval.rs`: same-constructor primitives only; every other
pair (aggregates, functions, cross-type) is not equal. -/
def valueEq : Value → Value → Bool
  | .number x, .number y => x == y
  | .bool x, .bool y => x == y
  | .str x, .str y => x == y
  | .null, .null => true
  | _, _ => false

/-- `add` from `eval.rs`: number addition, string concatenation, and the
permissive string-with-anything concatenation. -/
def addValues (l r : Value) : Except RuntimeError Value :=
  match l, r with
  | .number a, .number b => .ok (.number (qAdd a b))
  | .str a, .str b => .ok (.str (a ++ b))
  | .str a, b => .ok (.str (a ++ valueDisplay b))
  | a, .str b => .ok (.str (valueDisplay a ++ b))
  | _, _ => .error (.msg "type error for +")

/-- `num2` from `eval.rs`: apply `f` when both operands are numbers,
otherwise the "number operands required" error. -/
def num2 (l r : Value) (f : QF → QF → Value) : Except RuntimeError Value :=
  match l, r with
  | .number a, .number b => .ok (f a b)
  | _, _ => .error (.msg "number operands required")

/-- `cmp` from `eval.rs`. -/
def cmpValues (l r : Value) (f : QF → QF → Bool) : Except RuntimeError Value :=
  match l, r with
  | .number a, .number b => .ok (.bool (f a b))
  | _, _ => .error (.msg "number operands required")

/-- The `Expr::Index` match of `eval_expr` (lines 192–201): a list indexed
by a number uses the `n as usize` cast and falls back to `Null` when out
of range; a map indexed by a string looks the key up; everything else is
`Null`. -/
def indexValue : Value → Value → Value
  | .list v, .number n => (v.get? (f64AsUsize n)).getD .null
  | .map m, .str s => (btGet m s).getD .null
  | _, _ => .null

/-- The `Expr::Field` match of `eval_expr` (lines 203–209). -/
def fieldValue (t : Value) (name : String) : Value :=
  match t with
  | .map m => (btGet m name).getD .null
  | _ => .null

/-- The binary-operator dispatch of `eval_expr` (lines 149–163), applied
to the two already-evaluated operands. -/
def binOpValues (op : BinOp) (l r : Value) : Except RuntimeError Value :=
  match op with
  | .add => addValues l r
  | .sub => num2 l r (fun a b => .number (qSub a b))
  | .mul => num2 l r (fun a b => .number (qMul a b))
  | .div => num2 l r (fun a b => .number (qDiv a b))
  | .mod => num2 l r (fun a b => .number (qMod a b))
  | .eq => .ok (.bool (valueEq l r))
  | .ne => .ok (.bool (!valueEq l r))
  | .lt => cmpValues l r (fun a b => qLt a b)
  | .le => cmpValues l r (fun a b => qLe a b)
  | .gt => cmpValues l r (fun a b => qLt b a)
  | .ge => cmpValues l r (fun a b => qLe b a)
  | .and => .ok (.bool (truthy l && truthy r))
  | .or => .ok (.bool (truthy l || truthy r))

/-- Parameter binding of `call_function`: positional, missing trailing
arguments become `Null`, extra arguments are ignored. -/
def bindParamsGo (frame : Nat) :
    InterpState → Nat → List (String × Option TypeExpr) → List Value → InterpState
  | st, _, [], _ => st
  | st, i, p :: ps, args =>
    bindParamsGo frame (defineAt st frame p.1 ((args.get? i).getD .null)) (i + 1) ps args

/-- The standard-library natives (`src/stdlib.rs`): the pure ones (`len`,
`keys`, `push`, `pop`) are ported; the host/IO-backed ones (`print`,
`clock`, `random`, `host`, `on`, `emit`) are modelled as returning `Null`.
No program examined in this development reaches a native call, and
`initState` installs none. -/
def nativeCall (name : String) (args : List Value) (st : InterpState) :
    InterpState × Except RuntimeError Value :=
  if name = "len" then
    (st, .ok (.number (qOfNat (match args.head? with
      | some (.str s) => s.length
      | some (.list v) => v.length
      | some (.map m) => m.length
      | _ => 0))))
  else if name = "keys" then
    (st, .ok (.list (match args.head? with
      | some (.map m) => m.map (fun kv => Value.str kv.1)
      | _ => [])))
  else if name = "push" then
    match args.head?, args.get? 1 with
    | some (.list l), some v => (st, .ok (.list (l ++ [v])))
    | _, _ => (st, .error (.msg "push expects (list, value)"))
  else if name = "pop" then
    match args.head? with
    | some (.list l) => (st, .ok (l.getLast?.getD .null))
    | _ => (st, .ok .null)
  else (st, .ok .null)

mutual

/-- The `for s in program.statements { last = self.exec_stmt(&s)?; }` loop
of `Interpreter::eval`: the *last* statement's result wins at top level. -/
def evalProgramGo :
    Nat → InterpState → Option Value → List Stmt →
    InterpState × Except RuntimeError (Option Value)
  | 0, st, _, _ => (st, .error .fuelOut)
  | _ + 1, st, last, [] => (st, .ok last)
  | fuel + 1, st, _, s :: rest =>
    match execStmt fuel st s with
    | (st1, .error e) => (st1, .error e)
    | (st1, .ok r) => evalProgramGo fuel st1 r rest

/-- `Interpreter::exec_block`: run in a fresh child frame; the first
statement yielding `Some` wins; the active frame is restored on the `Ok`
path (the `?` on a failing statement skips the restore). -/
def execBlock :
    Nat → InterpState → List Stmt → InterpState × Except RuntimeError (Option Value)
  | 0, st, _ => (st, .error .fuelOut)
  | fuel + 1, st, body =>
    let ac := allocChild st st.env
    let saved := st.env
    match execFirstSome fuel { ac.1 with env := ac.2 } body with
    | (st1, .error e) => (st1, .error e)
    | (st1, .ok r) => ({ st1 with env := saved }, .ok r)

/-- The body loop shared by `exec_block` (`result = Some(v); break`). -/
def execFirstSome :
    Nat → InterpState → List Stmt → InterpState × Except RuntimeError (Option Value)
  | 0, st, _ => (st, .error .fuelOut)
  | _ + 1, st, [] => (st, .ok none)
  | fuel + 1, st, s :: rest =>
    match execStmt fuel st s with
    | (st1, .error e) => (st1, .error e)
    | (st1, .ok (some v)) => (st1, .ok (some v))
    | (st1, .ok none) => execFirstSome fuel st1 rest

/-- `Interpreter::exec_stmt`. -/
def execStmt : Nat → InterpState → Stmt → InterpState × Except RuntimeError (Option Value)
  | 0, st, _ => (st, .error .fuelOut)
  | fuel + 1, st, stmt =>
    match stmt with
    | .letD name _ init =>
      match evalExpr fuel st init with
      | (st1, .error e) => (st1, .error e)
      | (st1, .ok v) => (defineAt st1 st1.env name v, .ok none)
    | .exprS e =>
      match evalExpr fuel st e with
      | (st1, .error er) => (st1, .error er)
      | (st1, .ok v) => (st1, .ok (some v))
    | .block b => execBlock fuel st b
    | .ifS cond thenB elseB =>
      match evalExpr fuel st cond with
      | (st1, .error e) => (st1, .error e)
      | (st1, .ok c) =>
        if truthy c then execStmt fuel st1 thenB
        else
          match elseB with
          | some e => execStmt fuel st1 e
          | none => (st1, .ok none)
    | .whileS cond body => whileLoop fuel st cond body
    | .forS name iter body =>
      match evalExpr fuel st iter with
      | (st1, .error e) => (st1, .error e)
      | (st1, .ok it) =>
        match it with
        | .list items => forLoop fuel st1 name body items
        | _ => (st1, .error (.msg "for expects list"))
    | .ret v =>
      match v with
      | some e =>
        match evalExpr fuel st e with
        | (st1, .error er) => (st1, .error er)
        | (st1, .ok val) => (st1, .ok (some val))
      | none => (st, .ok (some .null))
    | .brk => (st, .ok none)
    | .cont => (st, .ok none)

/-- The `Stmt::While` loop: repeat while truthy, propagating `Some`. -/
def whileLoop :
    Nat → InterpState → Expr → Stmt → InterpState × Except RuntimeError (Option Value)
  | 0, st, _, _ => (st, .error .fuelOut)
  | fuel + 1, st, cond, body =>
    match evalExpr fuel st cond with
    | (st1, .error e) => (st1, .error e)
    | (st1, .ok c) =>
      if truthy c then
        match execStmt fuel st1 body with
        | (st2, .error e) => (st2, .error e)
        | (st2, .ok (some v)) => (st2, .ok (some v))
        | (st2, .ok none) => whileLoop fuel st2 cond body
      else (st1, .ok none)

/-- The `Stmt::For` per-item loop: fresh child frame binding the loop
variable, frame restored after an `Ok` body run (a failing body skips the
restore via `?`), `Some` results returned immediately. -/
def forLoop :
    Nat → InterpState → String → Stmt → List Value →
    InterpState × Except RuntimeError (Option Value)
  | 0, st, _, _, _ => (st, .error .fuelOut)
  | _ + 1, st, _, _, [] => (st, .ok none)
  | fuel + 1, st, name, body, item :: items =>
    let ac := allocChild st st.env
    let st1 := defineAt ac.1 ac.2 name item
    let saved := st.env
    match execStmt fuel { st1 with env := ac.2 } body with
    | (st2, .error e) => (st2, .error e)
    | (st2, .ok r) =>
      let st3 := { st2 with env := saved }
      if r.isSome then (st3, .ok r)
      else forLoop fuel st3 name body items

/-- `Interpreter::eval_expr`. -/
def evalExpr : Nat → InterpState → Expr → InterpState × Except RuntimeError Value
  | 0, st, _ => (st, .error .fuelOut)
  | fuel + 1, st, e =>
    match e with
    | .lit (.num n) => (st, .ok (.number n))
    | .lit (.bool b) => (st, .ok (.bool b))
    | .lit (.str s) => (st, .ok (.str s))
    | .lit .null => (st, .ok .null)
    | .var name =>
      match stateGetVar st name with
      | some v => (st, .ok v)
      | none => (st, .error (.msg ("Undefined variable '" ++ name ++ "'")))
    | .assign name value =>
      match evalExpr fuel st value with
      | (st1, .error er) => (st1, .error er)
      | (st1, .ok v) =>
        match envAssignVar (st1.heap.length + 1) st1.heap st1.env name v with
        | .ok heap' => ({ st1 with heap := heap' }, .ok v)
        | .error m => (st1, .error (.msg m))
    | .unary op inner =>
      match evalExpr fuel st inner with
      | (st1, .error er) => (st1, .error er)
      | (st1, .ok v) =>
        match op with
        | .neg =>
          match v with
          | .number n => (st1, .ok (.number (qNeg n)))
          | _ => (st1, .error (.msg "Unary - expects number"))
        | .not => (st1, .ok (.bool (!truthy v)))
    | .binary left op right =>
      match evalExpr fuel st left with
      | (st1, .error er) => (st1, .error er)
      | (st1, .ok l) =>
        match evalExpr fuel st1 right with
        | (st2, .error er) => (st2, .error er)
        | (st2, .ok r) => (st2, binOpValues op l r)
    | .call callee args =>
      match evalExpr fuel st callee with
      | (st1, .error er) => (st1, .error er)
      | (st1, .ok c) =>
        match evalArgs fuel st1 args with
        | (st2, .error er) => (st2, .error er)
        | (st2, .ok a) => callFunction fuel st2 c a
    | .fn params retT body =>
      let _ := retT
      (st, .ok (.function (.user params body st.env)))
    | .listE items =>
      match evalArgs fuel st items with
      | (st1, .error er) => (st1, .error er)
      | (st1, .ok vs) => (st1, .ok (.list vs))
    | .mapE props => evalMapProps fuel st props []
    | .index target idx =>
      match evalExpr fuel st target with
      | (st1, .error er) => (st1, .error er)
      | (st1, .ok t) =>
        match evalExpr fuel st1 idx with
        | (st2, .error er) => (st2, .error er)
        | (st2, .ok i) => (st2, .ok (indexValue t i))
    | .field target name =>
      match evalExpr fuel st target with
      | (st1, .error er) => (st1, .error er)
      | (st1, .ok t) => (st1, .ok (fieldValue t name))

/-- Left-to-right evaluation of an expression list (call arguments and
list literals). -/
def evalArgs : Nat → InterpState → List Expr → InterpState × Except RuntimeError (List Value)
  | 0, st, _ => (st, .error .fuelOut)
  | _ + 1, st, [] => (st, .ok [])
  | fuel + 1, st, e :: rest =>
    match evalExpr fuel st e with
    | (st1, .error er) => (st1, .error er)
    | (st1, .ok v) =>
      match evalArgs fuel st1 rest with
      | (st2, .error er) => (st2, .error er)
      | (st2, .ok vs) => (st2, .ok (v :: vs))

/-- `Expr::Map` evaluation: `BTreeMap::insert` per property in order. -/
def evalMapProps :
    Nat → InterpState → List (String × Expr) → List (String × Value) →
    InterpState × Except RuntimeError Value
  | 0, st, _, _ => (st, .error .fuelOut)
  | _ + 1, st, [], acc => (st, .ok (.map acc))
  | fuel + 1, st, (k, e) :: rest, acc =>
    match evalExpr fuel st e with
    | (st1, .error er) => (st1, .error er)
    | (st1, .ok v) => evalMapProps fuel st1 rest (btInsert acc k v)

/-- `Interpreter::call_function`.  For a user function: fresh child frame
parented at the *closure's* captured frame, positional parameter binding,
"first `Some` wins" body execution, and `self.env = saved` restoration —
which the `?` on a failing body statement skips, exactly as in the
source. -/
def callFunction :
    Nat → InterpState → Value → List Value → InterpState × Except RuntimeError Value
  | 0, st, _, _ => (st, .error .fuelOut)
  | fuel + 1, st, callee, args =>
    match callee with
    | .function f =>
      match f with
      | .native name => nativeCall name args st
      | .user params body envi =>
        let ac := allocChild st envi
        let st1 := bindParamsGo ac.2 ac.1 0 params args
        let saved := st.env
        match execFnBody fuel { st1 with env := ac.2 } body with
        | (st2, .error e) => (st2, .error e)
        | (st2, .ok v) => ({ st2 with env := saved }, .ok v)
    | _ => (st, .error (.msg "attempt to call non-function"))

/-- The user-function body loop of `call_function` (`ret = Value::Null;
... if let Some(v) = exec_stmt? { ret = v; break }`). -/
def execFnBody : Nat → InterpState → List Stmt → InterpState × Except RuntimeError Value
  | 0, st, _ => (st, .error .fuelOut)
  | _ + 1, st, [] => (st, .ok .null)
  | fuel + 1, st, s :: rest =>
    match execStmt fuel st s with
    | (st1, .error e) => (st1, .error e)
    | (st1, .ok (some v)) => (st1, .ok v)
    | (st1, .ok none) => execFnBody fuel st1 rest

end

/-- `Interpreter::eval`. -/
def evalProgram (fuel : Nat) (st : InterpState) (p : Program) :
    InterpState × Except RuntimeError (Option Value) :=
  evalProgramGo fuel st none p.statements

/-! ## Newline-run accounting (for the blank-line bound of the formatter)

`nlRunsLE k l` scans `l` with a current-run counter and checks that every
maximal run of `'\n'` has length at most `k`; it is related below to the
claim's phrasing "contains more than `k` consecutive newline characters"
(`List.replicate (k+1) '\n' <:+: l`). -/

def nlRunsLEAux (k : Nat) : List Char → Nat → Bool
  | [], _ => true
  | c :: tl, cur =>
    if c = '\n' then decide (cur + 1 ≤ k) && nlRunsLEAux k tl (cur + 1)
    else nlRunsLEAux k tl 0

def nlRunsLE (k : Nat) (l : List Char) : Bool := nlRunsLEAux k l 0

/-- Length of the trailing `'\n'` run. -/
def trailNL (l : List Char) : Nat := (l.reverse.takeWhile (fun c => c == '\n')).length

/-- The run-counter value after scanning `l` starting from `cur`. -/
def nlCarry (l : List Char) (cur : Nat) : Nat :=
  if l.all (fun c => c == '\n') then cur + l.length else trailNL l

/-- Trailing `'\n'` run after discarding trailing spaces. -/
def trailNLS (l : List Char) : Nat := trailNL (popTrailSpaces l)

/-- Drop the trailing `'\n'` run. -/
def dropTrailNL (l : List Char) : List Char :=
  (l.reverse.dropWhile (fun c => c == '\n')).reverse

/-- Below the (space-trimmed) trailing newline run there is, after
trimming spaces again, no further newline: rules out the shape
`… '\n' ' '+ '\n'+ ' '*` at the end of the buffer. -/
def deepOK (l : List Char) : Prop :=
  trailNL (popTrailSpaces (dropTrailNL (popTrailSpaces l))) = 0

/-- Token texts free of embedded newlines (every token kind except the
explicit newline token carries its source text; only block comments and
string literals can actually span lines). -/
def tokNLFree : TKind → Bool
  | .op s => !(s.contains '\n')
  | .ident s => !(s.contains '\n')
  | .number s => !(s.contains '\n')
  | .str s => !(s.contains '\n')
  | .keyword s => !(s.contains '\n')
  | .lineComment s => !(s.contains '\n')
  | .blockComment s => !(s.contains '\n')
  | _ => true

/-- Holds iff the list is nonempty and starts with a character other
than a space. -/
def headNonSpace (s : List Char) : Bool :=
  match s.head? with
  | some c => !(c = ' ')
  | none => false

/-- Token texts are nonempty and start with a non-space character (true
of every token `tokenize` produces: comments start with `/`, strings
with `"`, and so on). -/
def tokHeadOK : TKind → Bool
  | .op s => headNonSpace s
  | .ident s => headNonSpace s
  | .number s => headNonSpace s
  | .str s => headNonSpace s
  | .keyword s => headNonSpace s
  | .lineComment s => headNonSpace s
  | .blockComment s => headNonSpace s
  | _ => true

/-- The render-state invariant for the blank-line bound, with `B` the
configured `max_blank_lines`. -/
def rinv (B : Nat) (s : RState) : Prop :=
  nlRunsLE (B + 1) s.out = true ∧
  trailNLS s.out ≤ s.blanks ∧
  (s.need_indent = true → trailNLS s.out ≤ B) ∧
  (s.need_indent = false → trailNLS s.out = 0) ∧
  deepOK s.out

/-- The invariant between a token arm and the collapse step (the bound on
`trailNLS` under `need_indent` is re-established by the collapse). -/
def winv (B : Nat) (s : RState) : Prop :=
  nlRunsLE (B + 1) s.out = true ∧
  trailNLS s.out ≤ s.blanks ∧
  (s.need_indent = true → endsWithC s.out '\n' = true ∨ trailNLS s.out = 0) ∧
  (s.need_indent = false → trailNLS s.out = 0) ∧
  deepOK s.out

/-! ## Concrete inputs used by the claims -/

/-- C1/C7 failing input: a multi-line block comment inside an indented
block (`fn f() { ... }` with `/* a\nb */` in the body). -/
def c1src : List Char := "fn f() \x7b\n/* a\nb */\n\x7d\n".data

/-- C8 counterexample input: a block comment whose interior is four
consecutive newline characters. -/
def c8src : List Char := "/*\n\n\n\n*/".data

/-- C8 witness input: no comment or string spans lines, with a long run
of blank lines for the formatter to collapse. -/
def c8goodsrc : List Char := "let x = 1;\n\n\n\n\n\nx = 2;".data

/-- C5 concrete input: a `let` without a type annotation. -/
def c5src : String := "let x = 1;"

/-- C6 concrete input (the spec's block/map disambiguation vector). -/
def c6src : String := "fn f(q) \x7b \x7b id: q.id, state: \"started\" \x7d \x7d"

/-- C2 program `let x = 41; let f = fn() { x + 1 }; f();` (as the AST the
parser produces, modulo the `let` type annotations that the interpreter
ignores). -/
def c2prog1 : Program := ⟨[
  .letD "x" none (.lit (.num ⟨41, 1⟩)),
  .letD "f" none (.fn [] none [.exprS (.binary (.var "x") .add (.lit (.num ⟨1, 1⟩)))]),
  .exprS (.call (.var "f") [])]⟩

/-- C2 program with `x = v;` inserted between the closure's creation and
its call. -/
def c2prog2 (v : QF) : Program := ⟨[
  .letD "x" none (.lit (.num ⟨41, 1⟩)),
  .letD "f" none (.fn [] none [.exprS (.binary (.var "x") .add (.lit (.num ⟨1, 1⟩)))]),
  .exprS (.assign "x" (.lit (.num v))),
  .exprS (.call (.var "f") [])]⟩

/-- C3 counterexample callee: a parameterless user function closing over
the global frame whose body raises "Undefined variable 'nope'". -/
def c3callee : Value := .function (.user [] [.exprS (.var "nope")] 0)

/-- C4 counterexample expression: `[10, 20][1.5]`. -/
def c4expr : Expr :=
  .index (.listE [.lit (.num ⟨10, 1⟩), .lit (.num ⟨20, 1⟩)]) (.lit (.num ⟨3, 2⟩))

/-! # Theorems -/

/-- C9: the checker's compatibility relation satisfies the claimed lattice
laws: for every type `t`, `is_compatible t Any`, `is_compatible Any t` and
`is_compatible Null t` hold, and `is_compatible (List a) (List b)` equals
`is_compatible a b`. -/
theorem c9_type_compatibility_lattice :
    (∀ t : Ty, is_compatible t .any = true ∧ is_compatible .any t = true ∧
      is_compatible .null t = true) ∧
    (∀ a b : Ty, is_compatible (.list a) (.list b) = is_compatible a b) := by
  constructor
  · intro t
    refine ⟨?_, ?_, ?_⟩
    · rw [is_compatible.eq_def]
      simp [show tyBeq Ty.any .any = true from rfl]
    · rw [is_compatible.eq_def]
      simp [show tyBeq Ty.any .any = true from rfl]
    · rw [is_compatible.eq_def]
      split
      · rfl
      · cases t <;> rfl
  · intro a b
    by_cases h : tyBeq a b = true
    · have hl : tyBeq (Ty.list a) (Ty.list b) = true := by
        simpa [tyBeq] using h
      rw [is_compatible.eq_def]
      rw [is_compatible.eq_def]
      rw [hl, h]
      rfl
    · simp only [Bool.not_eq_true] at h
      have hl : tyBeq (Ty.list a) (Ty.list b) = false := by
        simpa [tyBeq] using h
      rw [is_compatible.eq_def]
      simp only [hl, show tyBeq (Ty.list b) Ty.any = false from rfl,
        show tyBeq (Ty.list a) Ty.any = false from rfl, Bool.false_or, Bool.or_false]
      rfl

/-- C5: at statement position, `let NAME` without a `: Type` annotation
before `=` is rejected.  Concretely, parsing `let x = 1;` yields the parse
error `Expected ": type annotation"` (at the `=` token, whose recorded
position is line 1, col 3), rendered `"expected : type annotation at line
1, col 3"`, and no `Program` is produced; and in general, for *every*
token stream of the shape `let NAME t …` where `t` is not a colon, the
parse fails with that same expected-description at `t`'s position. -/
theorem c5_let_requires_type_annotation :
    (parse_program 99 c5src = .error (.expected ": type annotation" 1 3) ∧
     parseErrorMessage (.expected ": type annotation" 1 3) =
       "expected : type annotation at line 1, col 3") ∧
    (∀ (nm : String) (a b c d tl tc : Nat) (tk : TokenKind) (rest : List Token),
      tk ≠ .colon →
      parseProgramGo 99
          ⟨⟨.kLet, a, b⟩ :: ⟨.identifier nm, c, d⟩ :: ⟨tk, tl, tc⟩ :: rest, 0⟩ =
        .error (.expected ": type annotation" tl tc)) := by
  refine ⟨⟨rfl, rfl⟩, ?_⟩
  intro nm a b c d tl tc tk rest h
  cases tk <;> first | rfl | exact absurd rfl h

/-- C5 witness: the general statement applied to the concrete stream
`let x = 1 …` (the `=` token is not a colon). -/
theorem c5_let_requires_type_annotation_witness :
    parseProgramGo 99
        ⟨⟨.kLet, 1, 1⟩ :: ⟨.identifier "x", 1, 2⟩ :: ⟨.assign, 1, 3⟩ ::
          [⟨.number ⟨1, 1⟩, 1, 4⟩, ⟨.semicolon, 1, 4⟩], 0⟩ =
      .error (.expected ": type annotation" 1 3) :=
  c5_let_requires_type_annotation.2 "x" 1 1 1 2 1 3 .assign
    [⟨.number ⟨1, 1⟩, 1, 4⟩, ⟨.semicolon, 1, 4⟩] (by decide)

/-- C6: a leading `{` at statement position is treated as a map literal
exactly when the token immediately inside `{` is an identifier followed by
`:` (that is what `looks_like_map_literal` tests, and `statement` takes
the block branch exactly when it is false); and the concrete program
`fn f(q) { { id: q.id, state: "started" } }` parses into exactly one
statement — a `Let` binding `f` to a function whose body's sole statement
is a map-literal expression statement — not two nested blocks. -/
theorem c6_block_map_disambiguation :
    (∀ p : PState, p.check .leftBrace = true →
      (looksLikeMapLiteral p = true ↔
        ∃ nm t1 t2, p.tokens.get? (p.pos + 1) = some t1 ∧
          t1.kind = .identifier nm ∧
          p.tokens.get? (p.pos + 1 + 1) = some t2 ∧ t2.kind = .colon)) ∧
    parse_program 999 c6src = .ok ⟨[
      Stmt.letD "f" none (.fn [("q", none)] none
        [.exprS (.mapE [("id", .field (.var "q") "id"),
                        ("state", .lit (.str "started"))])])]⟩ := by
  constructor
  · intro p h
    unfold looksLikeMapLiteral
    rw [h]
    simp only [Bool.not_true, Bool.false_eq_true, if_false]
    constructor
    · intro hl
      split at hl
      · split at hl
        · rename_i nm l1 c1 l2 c2 h1 h2
          exact ⟨nm, _, _, h1, rfl, h2, rfl⟩
        · simp at hl
      · simp at hl
    · rintro ⟨nm, t1, t2, h1, hk1, h2, hk2⟩
      obtain ⟨hlt, -⟩ := List.get?_eq_some.mp h2
      rw [if_pos hlt, h1, h2]
      obtain ⟨k1, l1, c1⟩ := t1
      obtain ⟨k2, l2, c2⟩ := t2
      simp only at hk1 hk2
      subst hk1
      subst hk2
      rfl
  · rfl

/-- C6 witness: the characterization applied at the inner `{` of the
concrete program (token position 6), where the next two tokens are the
identifier `id` and a colon. -/
theorem c6_block_map_disambiguation_witness :
    looksLikeMapLiteral ⟨lex c6src, 6⟩ = true :=
  (c6_block_map_disambiguation.1 ⟨lex c6src, 6⟩ (by decide)).mpr
    ⟨"id", ⟨.identifier "id", 1, 5⟩, ⟨.colon, 1, 5⟩, by decide, rfl, by decide, rfl⟩

/-- C2: closures capture their defining frame by reference.  The program
`let x = 41; let f = fn() { x + 1 }; f();` evaluates to `42`, and with
`x = v;` inserted after `f`'s creation and before the call, `f()`
evaluates to `v + 1` (`qAdd v qOne`), for every number value `v`.  (The
claim's "any value" is read at number values, the only ones for which
`v + 1` denotes; the `let` type annotations the current parser would
require are ignored by the interpreter and omitted from the AST.) -/
theorem c2_closure_capture_by_reference :
    (evalProgram 64 initState c2prog1).2 = .ok (some (.number ⟨42, 1⟩)) ∧
    (∀ v : QF,
      (evalProgram 64 initState (c2prog2 v)).2 = .ok (some (.number (qAdd v qOne)))) :=
  ⟨rfl, fun _ => rfl⟩

/-- C2 witness: the universal part at `v = 100` (the program observes the
mutation: `f()` returns `101`). -/
theorem c2_closure_capture_by_reference_witness :
    (evalProgram 64 initState (c2prog2 ⟨100, 1⟩)).2 =
      .ok (some (.number (qAdd ⟨100, 1⟩ qOne))) :=
  c2_closure_capture_by_reference.2 ⟨100, 1⟩

/-- C3 counterexample: the claim "the interpreter's env field equals its
value just before the call, regardless of outcome" fails when the body
raises a `RuntimeError`.  Calling the parameterless function with body
`nope;` (from the global frame 0) propagates "Undefined variable 'nope'"
and leaves the interpreter's `env` field at the freshly allocated callee
frame 1, not at the pre-call frame 0. -/
theorem c3_env_not_restored_on_error :
    callFunction 64 initState c3callee [] =
      (⟨[⟨none, []⟩, ⟨some 0, []⟩], 1⟩, .error (.msg "Undefined variable 'nope'")) ∧
    (1 : Nat) ≠ initState.env :=
  ⟨rfl, by decide⟩

/-- C3 (amended): after `call_function` on a user `Function` returns *with
`Ok`*, the interpreter's `env` field equals its value just before the call
(the `self.env = saved` restore); when a `RuntimeError` propagates from
the body, the `?` operator skips the restore and `env` is left at the
frame active at the error point. -/
theorem c3_env_restored_on_ok :
    ∀ (fuel : Nat) (st : InterpState) (params : List (String × Option TypeExpr))
      (body : List Stmt) (envi : Nat) (args : List Value)
      (st' : InterpState) (v : Value),
      callFunction fuel st (.function (.user params body envi)) args = (st', .ok v) →
      st'.env = st.env := by
  intro fuel st params body envi args st' v h
  cases fuel with
  | zero => simp [callFunction] at h
  | succ n =>
    simp only [callFunction] at h
    split at h
    · simp at h
    · rw [Prod.mk.injEq] at h
      obtain ⟨h1, -⟩ := h
      subst h1
      rfl

/-- C3 witness: a successful call (body `5;`) whose final state has the
caller's frame restored. -/
theorem c3_env_restored_on_ok_witness :
    (⟨[⟨none, []⟩, ⟨some 0, []⟩], 0⟩ : InterpState).env = initState.env :=
  c3_env_restored_on_ok 64 initState [] [.exprS (.lit (.num ⟨5, 1⟩))] 0 []
    ⟨[⟨none, []⟩, ⟨some 0, []⟩], 0⟩ (.number ⟨5, 1⟩) rfl

/-- C4 counterexample: the claim "for every List `v` and Number `n` that
is not an integer in `[0, length v)`, `v[n]` yields Null" fails at
`[10, 20][1.5]`: `1.5` is a number in `[0, 2)` that is not an integer
(its reduced denominator is 2), yet evaluation yields `20` (the `n as
usize` cast truncates `1.5` to index `1`), not `Null`. -/
theorem c4_fractional_index_hits_element :
    (evalExpr 64 initState c4expr).2 = .ok (.number ⟨20, 1⟩) ∧
    Value.number ⟨20, 1⟩ ≠ Value.null ∧
    (⟨3, 2⟩ : QF).den ≠ 1 ∧
    qLe ⟨0, 1⟩ ⟨3, 2⟩ = true ∧ qLt ⟨3, 2⟩ ⟨2, 1⟩ = true :=
  ⟨rfl, by simp, by decide, rfl, rfl⟩

/-- C4 (amended): indexing a `List` with a Number `n` selects the element
at the `n as usize` cast of `n` (truncation toward zero, negative values
to 0) when that index is in range — so a non-integer `n` whose truncation
is in range yields that element, not Null — and yields Null when it is out
of range; a `Map` indexed by a non-`String` value yields Null, any other
target/index combination yields Null, and the `Index` expression evaluates
to exactly this on its evaluated operands. -/
theorem c4_index_semantics :
    (∀ (xs : List Value) (n : QF) (h : f64AsUsize n < xs.length),
      indexValue (.list xs) (.number n) = xs.get ⟨f64AsUsize n, h⟩) ∧
    (∀ (xs : List Value) (n : QF), xs.length ≤ f64AsUsize n →
      indexValue (.list xs) (.number n) = .null) ∧
    (∀ (m : List (String × Value)) (i : Value), (∀ s, i ≠ .str s) →
      indexValue (.map m) i = .null) ∧
    (∀ (t i : Value), (∀ xs, t ≠ .list xs) → (∀ m, t ≠ .map m) →
      indexValue t i = .null) ∧
    (∀ (fuel : Nat) (st st1 st2 : InterpState) (e1 e2 : Expr) (t i : Value),
      evalExpr fuel st e1 = (st1, .ok t) → evalExpr fuel st1 e2 = (st2, .ok i) →
      evalExpr (fuel + 1) st (.index e1 e2) = (st2, .ok (indexValue t i))) := by
  refine ⟨?_, ?_, ?_, ?_, ?_⟩
  · intro xs n h
    simp [indexValue, List.getElem?_eq_getElem h]
  · intro xs n h
    simp [indexValue, List.getElem?_eq_none h]
  · intro m i h
    cases i <;> first | rfl | exact absurd rfl (h _)
  · intro t i h1 h2
    cases t <;> first | rfl | exact absurd rfl (h1 _) | exact absurd rfl (h2 _)
  · intro fuel st st1 st2 e1 e2 t i h1 h2
    simp only [evalExpr, h1, h2]

/-- C4 witness: the in-range part at `[10, 20]` and `n = 1.5`
(`f64AsUsize 1.5 = 1 < 2`). -/
theorem c4_index_semantics_witness :
    indexValue (.list [.number ⟨10, 1⟩, .number ⟨20, 1⟩]) (.number ⟨3, 2⟩) =
      [Value.number ⟨10, 1⟩, Value.number ⟨20, 1⟩].get ⟨f64AsUsize ⟨3, 2⟩, by decide⟩ :=
  c4_index_semantics.1 [.number ⟨10, 1⟩, .number ⟨20, 1⟩] ⟨3, 2⟩ (by decide)

/-- C10: evaluating a `/` (or `%`) binary expression never produces a
`RuntimeError` when both operands are Numbers — even when the right
operand is 0, the unguarded `num2` happy path applies the division and
wraps the result as a Number (in this exact-rational model `qDiv`/`qMod`;
the IEEE-754 infinity/NaN special values are outside the model) — and the
"number operands required" error is raised exactly when an operand is not
a Number. -/
theorem c10_division_never_errors_on_numbers :
    (∀ (f : QF → QF → Value) (a b : QF),
      num2 (.number a) (.number b) f = .ok (f a b)) ∧
    (∀ (f : QF → QF → Value) (l r : Value),
      ((∀ a, l ≠ .number a) ∨ (∀ b, r ≠ .number b)) →
      num2 l r f = .error (.msg "number operands required")) ∧
    (∀ (fuel : Nat) (st st1 st2 : InterpState) (e1 e2 : Expr) (a b : QF),
      evalExpr fuel st e1 = (st1, .ok (.number a)) →
      evalExpr fuel st1 e2 = (st2, .ok (.number b)) →
      evalExpr (fuel + 1) st (.binary e1 .div e2) = (st2, .ok (.number (qDiv a b))) ∧
      evalExpr (fuel + 1) st (.binary e1 .mod e2) = (st2, .ok (.number (qMod a b)))) ∧
    (evalExpr 64 initState
        (.binary (.lit (.num ⟨1, 1⟩)) .div (.lit (.num ⟨0, 1⟩)))).2 =
      .ok (.number (qDiv ⟨1, 1⟩ ⟨0, 1⟩)) := by
  refine ⟨fun _ _ _ => rfl, ?_, ?_, rfl⟩
  · intro f l r h
    cases l <;> cases r <;>
      first
        | rfl
        | (rcases h with h | h <;> exact absurd rfl (h _))
  · intro fuel st st1 st2 e1 e2 a b h1 h2
    constructor
    · simp only [evalExpr, h1, h2, binOpValues, num2]
    · simp only [evalExpr, h1, h2, binOpValues, num2]

/-- C10 witness: the never-errors part at `1 / 0` and `1 % 0` from literal
operands. -/
theorem c10_division_never_errors_on_numbers_witness :
    evalExpr 65 initState (.binary (.lit (.num ⟨1, 1⟩)) .div (.lit (.num ⟨0, 1⟩))) =
      (initState, .ok (.number (qDiv ⟨1, 1⟩ ⟨0, 1⟩))) ∧
    evalExpr 65 initState (.binary (.lit (.num ⟨1, 1⟩)) .mod (.lit (.num ⟨0, 1⟩))) =
      (initState, .ok (.number (qMod ⟨1, 1⟩ ⟨0, 1⟩))) :=
  (c10_division_never_errors_on_numbers.2.2.1 64 initState initState initState
    (.lit (.num ⟨1, 1⟩)) (.lit (.num ⟨0, 1⟩)) ⟨1, 1⟩ ⟨0, 1⟩ rfl rfl)

/-- C1: the formatter is *not* idempotent.  On the input
`fn f() {\n/* a\nb */\n}\n` the first pass re-indents the interior line of
the multi-line block comment by one indent level, and the second pass
indents it again, so `format(format(s)) ≠ format(s)` under the default
options — contradicting the spec's "must be idempotent" and the
repository's own idempotence assertions. -/
theorem c1_formatter_not_idempotent_on_input :
    format_source (format_source c1src) ≠ format_source c1src := by decide

/-- C7: comment preservation fails for multi-line block comments.  The
input `fn f() {\n/* a\nb */\n}\n` contains the block-comment token
`/* a\nb */`, but the formatted output does not contain that text
character-for-character (the interior line `b */` is re-indented to
`  b */`, although the code's own comment says "Preserve block as-is"). -/
theorem c7_block_comment_not_preserved_verbatim :
    (TKind.blockComment "/* a\nb */".data) ∈ tokenize c1src ∧
    ¬ List.IsInfix "/* a\nb */".data (format_source c1src) := by
  exact ⟨by decide, by decide⟩

/-- C8 counterexample: the output *can* contain more than
`max_blank_lines + 1` consecutive newline characters.  The input
`/*\n\n\n\n*/` is a single block comment whose interior blank lines are
preserved verbatim (at indent 0 the re-indent inserts nothing), so the
output contains a run of 4 newlines while `max_blank_lines + 1 = 3`. -/
theorem c8_blank_line_bound_violated_by_comment :
    List.IsInfix (List.replicate (defaultOptions.max_blank_lines + 2) '\n')
      (format_source c8src) := by decide

-- generic list helpers
theorem dropWhile_idem_cust (p : Char → Bool) :
    ∀ l : List Char, List.dropWhile p (List.dropWhile p l) = List.dropWhile p l
  | [] => rfl
  | c :: tl => by
    by_cases h : p c = true
    · rw [List.dropWhile_cons, if_pos h]; exact dropWhile_idem_cust p tl
    · rw [List.dropWhile_cons, if_neg h, List.dropWhile_cons, if_neg h]

theorem takeWhile_dropWhile_nil (p : Char → Bool) :
    ∀ l : List Char, List.takeWhile p (List.dropWhile p l) = []
  | [] => rfl
  | c :: tl => by
    by_cases h : p c = true
    · rw [List.dropWhile_cons, if_pos h]; exact takeWhile_dropWhile_nil p tl
    · rw [List.dropWhile_cons, if_neg h, List.takeWhile_cons, if_neg h]

theorem dropWhile_of_takeWhile_nil (p : Char → Bool) (l : List Char)
    (h : List.takeWhile p l = []) : List.dropWhile p l = l := by
  cases l with
  | nil => rfl
  | cons c tl =>
    rw [List.takeWhile_cons] at h
    by_cases hc : p c = true
    · rw [if_pos hc] at h; exact absurd h (by simp)
    · rw [List.dropWhile_cons, if_neg hc]

theorem takeWhile_eq_self_of_all (p : Char → Bool) :
    ∀ l : List Char, l.all p = true → List.takeWhile p l = l
  | [], _ => rfl
  | c :: tl, h => by
    rw [List.all_cons, Bool.and_eq_true] at h
    rw [List.takeWhile_cons, if_pos h.1, takeWhile_eq_self_of_all p tl h.2]

theorem takeWhile_append_split (p : Char → Bool) :
    ∀ x y : List Char, List.takeWhile p (x ++ y) =
      List.takeWhile p x ++ (if x.all p then List.takeWhile p y else [])
  | [], y => by simp
  | c :: x', y => by
    by_cases h : p c = true
    · simp only [List.cons_append, List.takeWhile_cons, if_pos h,
        takeWhile_append_split p x' y, List.all_cons, h, Bool.true_and]
      rfl
    · simp [List.takeWhile_cons, if_neg h, List.all_cons,
        Bool.eq_false_iff.mpr h]

-- trailNL basics
theorem trailNL_nil : trailNL [] = 0 := rfl

theorem trailNL_snoc_nl (l : List Char) : trailNL (l ++ ['\n']) = trailNL l + 1 := by
  simp [trailNL, List.takeWhile]

theorem trailNL_snoc (l : List Char) (c : Char) (h : ¬ c = '\n') :
    trailNL (l ++ [c]) = 0 := by
  simp [trailNL, List.takeWhile, h]

theorem trailNL_all (l : List Char) (h : l.all (fun c => c == '\n') = true) :
    trailNL l = l.length := by
  unfold trailNL
  rw [takeWhile_eq_self_of_all _ _ (by simpa using h), List.length_reverse]

theorem trailNL_cons_notall (c : Char) (tl : List Char)
    (h : tl.all (fun c => c == '\n') = false) : trailNL (c :: tl) = trailNL tl := by
  unfold trailNL
  rw [show (c :: tl).reverse = tl.reverse ++ [c] by simp,
      takeWhile_append_split]
  rw [show (tl.reverse.all (fun c => c == '\n')) = false by simpa using h]
  simp

theorem trailNL_cons_all (c : Char) (tl : List Char)
    (hall : tl.all (fun c => c == '\n') = true) (hc : ¬ c = '\n') :
    trailNL (c :: tl) = tl.length := by
  unfold trailNL
  rw [show (c :: tl).reverse = tl.reverse ++ [c] by simp,
      takeWhile_append_split]
  rw [show (tl.reverse.all (fun c => c == '\n')) = true by
        rw [List.all_reverse]; exact hall]
  rw [takeWhile_eq_self_of_all _ _ (by rw [List.all_reverse]; exact hall)]
  simp [List.takeWhile_cons, hc]

-- popTrailSpaces basics
theorem pts_nil : popTrailSpaces [] = [] := rfl

theorem pts_snoc_space (l : List Char) : popTrailSpaces (l ++ [' ']) = popTrailSpaces l := by
  simp [popTrailSpaces, List.dropWhile]

theorem pts_snoc (l : List Char) (c : Char) (h : ¬ c = ' ') :
    popTrailSpaces (l ++ [c]) = l ++ [c] := by
  simp [popTrailSpaces, List.dropWhile, h]

theorem pts_idem (l : List Char) :
    popTrailSpaces (popTrailSpaces l) = popTrailSpaces l := by
  unfold popTrailSpaces
  rw [List.reverse_reverse, dropWhile_idem_cust]

theorem pts_decomp (l : List Char) :
    l = popTrailSpaces l ++ ((l.reverse.takeWhile (fun c => c == ' ')).reverse) := by
  unfold popTrailSpaces
  conv_lhs => rw [show l = l.reverse.reverse by simp]
  rw [← List.reverse_append, List.takeWhile_append_dropWhile]

theorem pts_append_spaces (l : List Char) (n : Nat) :
    popTrailSpaces (l ++ List.replicate n ' ') = popTrailSpaces l := by
  induction n with
  | zero => simp
  | succ m ih =>
    rw [List.replicate_succ' (n := m), ← List.append_assoc, pts_snoc_space, ih]

-- dropTrailNL basics
theorem dropTrailNL_snoc_nl (l : List Char) :
    dropTrailNL (l ++ ['\n']) = dropTrailNL l := by
  simp [dropTrailNL, List.dropWhile]

theorem trailNL_dropTrailNL (l : List Char) : trailNL (dropTrailNL l) = 0 := by
  unfold trailNL dropTrailNL
  rw [List.reverse_reverse, takeWhile_dropWhile_nil]
  rfl

theorem dropTrailNL_eq_self (l : List Char) (h : trailNL l = 0) : dropTrailNL l = l := by
  unfold trailNL at h
  unfold dropTrailNL
  rw [dropWhile_of_takeWhile_nil _ _ (List.eq_nil_of_length_eq_zero h), List.reverse_reverse]

theorem dropTrailNL_decomp (l : List Char) :
    l = dropTrailNL l ++ ((l.reverse.takeWhile (fun c => c == '\n')).reverse) := by
  unfold dropTrailNL
  conv_lhs => rw [show l = l.reverse.reverse by simp]
  rw [← List.reverse_append, List.takeWhile_append_dropWhile]


-- master append lemma for the run counter
theorem nlCarry_nil (cur : Nat) : nlCarry [] cur = cur := by
  simp [nlCarry]

theorem nlCarry_cons_nl (tl : List Char) (cur : Nat) :
    nlCarry ('\n' :: tl) cur = nlCarry tl (cur + 1) := by
  unfold nlCarry
  by_cases h : tl.all (fun c => c == '\n') = true
  · rw [if_pos (by simp [List.all_cons, h]), if_pos h]
    simp [Nat.add_assoc, Nat.add_comm 1]
  · rw [Bool.not_eq_true] at h
    rw [if_neg (by simp [List.all_cons, h]), if_neg (by simp [h]),
        trailNL_cons_notall _ _ h]

theorem nlCarry_cons (c : Char) (tl : List Char) (cur : Nat) (hc : ¬ c = '\n') :
    nlCarry (c :: tl) cur = nlCarry tl 0 := by
  unfold nlCarry
  have hnotall : (c :: tl).all (fun c => c == '\n') = false := by
    simp [List.all_cons, hc]
  rw [if_neg (by simp [hnotall])]
  by_cases h : tl.all (fun c => c == '\n') = true
  · rw [if_pos h, trailNL_cons_all _ _ h hc, Nat.zero_add]
  · rw [Bool.not_eq_true] at h
    rw [if_neg (by simp [h]), trailNL_cons_notall _ _ h]

theorem nlRunsLEAux_cons (k : Nat) (c : Char) (tl : List Char) (cur : Nat) :
    nlRunsLEAux k (c :: tl) cur =
      if c = '\n' then decide (cur + 1 ≤ k) && nlRunsLEAux k tl (cur + 1)
      else nlRunsLEAux k tl 0 := rfl

theorem nlRunsLEAux_append (k : Nat) :
    ∀ (l m : List Char) (cur : Nat),
      nlRunsLEAux k (l ++ m) cur =
        (nlRunsLEAux k l cur && nlRunsLEAux k m (nlCarry l cur))
  | [], m, cur => by simp [nlRunsLEAux, nlCarry_nil]
  | c :: tl, m, cur => by
    by_cases hc : c = '\n'
    · subst hc
      rw [List.cons_append, nlRunsLEAux_cons, nlRunsLEAux_cons, if_pos rfl, if_pos rfl,
          nlRunsLEAux_append k tl m (cur + 1), nlCarry_cons_nl, Bool.and_assoc]
    · rw [List.cons_append, nlRunsLEAux_cons, nlRunsLEAux_cons, if_neg hc, if_neg hc,
          nlRunsLEAux_append k tl m 0, nlCarry_cons c tl cur hc]

theorem nlCarry_zero (l : List Char) : nlCarry l 0 = trailNL l := by
  unfold nlCarry
  by_cases h : l.all (fun c => c == '\n') = true
  · rw [if_pos h, trailNL_all l h, Nat.zero_add]
  · rw [if_neg h]

theorem runs_snoc_nl (k : Nat) (l : List Char) :
    nlRunsLE k (l ++ ['\n']) = (nlRunsLE k l && decide (trailNL l + 1 ≤ k)) := by
  unfold nlRunsLE
  rw [nlRunsLEAux_append, nlCarry_zero]
  simp [nlRunsLEAux]

theorem runs_snoc (k : Nat) (l : List Char) (c : Char) (hc : ¬ c = '\n') :
    nlRunsLE k (l ++ [c]) = nlRunsLE k l := by
  unfold nlRunsLE
  rw [nlRunsLEAux_append]
  simp [nlRunsLEAux, hc]

theorem nlRunsLEAux_nlfree (k : Nat) :
    ∀ (m : List Char), m.contains '\n' = false → ∀ cur, nlRunsLEAux k m cur = true
  | [], _, _ => rfl
  | c :: tl, h, cur => by
    rw [List.contains_cons, Bool.or_eq_false_iff] at h
    have hc : ¬ c = '\n' := by
      intro he; subst he; simp at h
    rw [nlRunsLEAux, if_neg hc]
    exact nlRunsLEAux_nlfree k tl h.2 0

theorem runs_append_nlfree (k : Nat) (l m : List Char) (h : m.contains '\n' = false) :
    nlRunsLE k (l ++ m) = nlRunsLE k l := by
  unfold nlRunsLE
  rw [nlRunsLEAux_append, nlRunsLEAux_nlfree k m h, Bool.and_true]

theorem runs_of_append_left (k : Nat) (l m : List Char) (h : nlRunsLE k (l ++ m) = true) :
    nlRunsLE k l = true := by
  unfold nlRunsLE at *
  rw [nlRunsLEAux_append, Bool.and_eq_true] at h
  exact h.1

theorem runs_pts (k : Nat) (l : List Char) (h : nlRunsLE k l = true) :
    nlRunsLE k (popTrailSpaces l) = true := by
  exact runs_of_append_left k _ _ (by rw [← pts_decomp l]; exact h)

theorem runs_dropTrailNL (k : Nat) (l : List Char) (h : nlRunsLE k l = true) :
    nlRunsLE k (dropTrailNL l) = true := by
  exact runs_of_append_left k _ _ (by rw [← dropTrailNL_decomp l]; exact h)


-- contains helpers
theorem contains_append_false (l1 l2 : List Char) (a : Char)
    (h : (l1 ++ l2).contains a = false) :
    l1.contains a = false ∧ l2.contains a = false := by
  simp only [List.contains_eq_any_beq, List.any_append, Bool.or_eq_false_iff] at h
  simp only [List.contains_eq_any_beq]
  exact h

theorem ne_of_contains_false (l : List Char) (a c : Char)
    (h : l.contains a = false) (hc : c ∈ l) : ¬ c = a := by
  intro he
  subst he
  simp only [List.contains_eq_any_beq, List.any_eq_false] at h
  have := h c hc
  simp at this

-- trailNLS basics
theorem trailNLS_nil : trailNLS [] = 0 := rfl

theorem trailNLS_snoc_space (l : List Char) : trailNLS (l ++ [' ']) = trailNLS l := by
  unfold trailNLS
  rw [pts_snoc_space]

theorem trailNLS_snoc_nl (l : List Char) : trailNLS (l ++ ['\n']) = trailNL l + 1 := by
  unfold trailNLS
  rw [pts_snoc l '\n' (by decide), trailNL_snoc_nl]

theorem trailNLS_snoc_content (l : List Char) (c : Char) (h1 : ¬ c = ' ')
    (h2 : ¬ c = '\n') : trailNLS (l ++ [c]) = 0 := by
  unfold trailNLS
  rw [pts_snoc l c h1, trailNL_snoc l c h2]

theorem trailNLS_append_spaces (l : List Char) (n : Nat) :
    trailNLS (l ++ List.replicate n ' ') = trailNLS l := by
  unfold trailNLS
  rw [pts_append_spaces]

theorem trailNLS_append_content (l : List Char) (m : List Char)
    (hm : m.contains '\n' = false) (hx : ∃ c ∈ m, ¬ c = ' ') :
    trailNLS (l ++ m) = 0 := by
  induction m using List.reverseRecOn generalizing l with
  | nil => obtain ⟨c, hc, _⟩ := hx; exact absurd hc (List.not_mem_nil c)
  | append_singleton m' d ih =>
    rw [← List.append_assoc]
    by_cases hd : d = ' '
    · subst hd
      rw [trailNLS_snoc_space]
      refine ih l ?_ ?_
      · exact (contains_append_false m' [' '] '\n' hm).1
      · obtain ⟨c, hc, hcs⟩ := hx
        rcases List.mem_append.mp hc with h | h
        · exact ⟨c, h, hcs⟩
        · rw [List.mem_singleton] at h
          exact absurd h hcs
    · refine trailNLS_snoc_content _ d hd ?_
      exact ne_of_contains_false _ '\n' d (contains_append_false m' [d] '\n' hm).2
        (List.mem_singleton.mpr rfl)


theorem trailNL_le_trailNLS (l : List Char) : trailNL l ≤ trailNLS l := by
  cases hl : l.getLast? with
  | none =>
    rw [List.getLast?_eq_none_iff] at hl
    subst hl
    exact Nat.le_refl 0
  | some c =>
    have hne : l ≠ [] := by
      intro he; subst he; simp at hl
    have hdec : l.dropLast ++ [c] = l := by
      have := List.dropLast_append_getLast hne
      rwa [List.getLast_eq_iff_getLast?_eq_some hne |>.mpr hl] at this
    by_cases hc : c = ' '
    · subst hc
      rw [← hdec, trailNL_snoc _ _ (by decide)]
      exact Nat.zero_le _
    · rw [← hdec]
      unfold trailNLS
      rw [pts_snoc _ _ hc]

-- deepOK lemmas
theorem deepOK_nil : deepOK [] := by
  unfold deepOK
  rfl

theorem deepOK_of_trailNLS_zero (l : List Char) (h : trailNLS l = 0) : deepOK l := by
  unfold deepOK
  unfold trailNLS at h
  rw [dropTrailNL_eq_self _ h, pts_idem]
  exact h

theorem deepOK_pts (l : List Char) : deepOK (popTrailSpaces l) ↔ deepOK l := by
  unfold deepOK
  rw [pts_idem]

-- endsWithC lemmas
theorem endsWithC_snoc (l : List Char) (c c' : Char) :
    endsWithC (l ++ [c]) c' = (c = c' : Bool) := by
  unfold endsWithC
  rw [List.getLast?_concat]
  by_cases h : c = c'
  · subst h; simp
  · simp [h]

theorem ends_nl_decomp (l : List Char) (h : endsWithC l '\n' = true) :
    l.dropLast ++ ['\n'] = l := by
  unfold endsWithC at h
  rw [decide_eq_true_iff] at h
  have hne : l ≠ [] := by
    intro he; subst he; simp at h
  have := List.dropLast_append_getLast hne
  rwa [List.getLast_eq_iff_getLast?_eq_some hne |>.mpr h] at this

theorem trailNL_zero_of_not_ends_nl (l : List Char) (h : endsWithC l '\n' = false) :
    trailNL l = 0 := by
  cases hl : l.getLast? with
  | none =>
    rw [List.getLast?_eq_none_iff] at hl
    subst hl
    rfl
  | some c =>
    have hne : l ≠ [] := by
      intro he; subst he; simp at hl
    have hdec : l.dropLast ++ [c] = l := by
      have := List.dropLast_append_getLast hne
      rwa [List.getLast_eq_iff_getLast?_eq_some hne |>.mpr hl] at this
    have hc : ¬ c = '\n' := by
      intro he
      subst he
      unfold endsWithC at h
      rw [hl] at h
      simp at h
    rw [← hdec, trailNL_snoc _ _ hc]

theorem ends_nl_of_trailNL_pos (l : List Char) (h : 0 < trailNL l) :
    endsWithC l '\n' = true := by
  by_cases he : endsWithC l '\n' = true
  · exact he
  · rw [Bool.not_eq_true] at he
    rw [trailNL_zero_of_not_ends_nl l he] at h
    exact absurd h (Nat.lt_irrefl 0)

theorem pts_of_ends_nl (l : List Char) (h : endsWithC l '\n' = true) :
    popTrailSpaces l = l := by
  rw [← ends_nl_decomp l h, pts_snoc _ _ (by decide)]

theorem trailNLS_zero_of_ends_other (l : List Char) (hs : endsWithC l ' ' = false)
    (hn : endsWithC l '\n' = false) : trailNLS l = 0 := by
  cases hl : l.getLast? with
  | none =>
    rw [List.getLast?_eq_none_iff] at hl
    subst hl
    rfl
  | some c =>
    have hne : l ≠ [] := by
      intro he; subst he; simp at hl
    have hdec : l.dropLast ++ [c] = l := by
      have := List.dropLast_append_getLast hne
      rwa [List.getLast_eq_iff_getLast?_eq_some hne |>.mpr hl] at this
    have hc1 : ¬ c = ' ' := by
      intro he; subst he
      unfold endsWithC at hs
      rw [hl] at hs
      simp at hs
    have hc2 : ¬ c = '\n' := by
      intro he; subst he
      unfold endsWithC at hn
      rw [hl] at hn
      simp at hn
    rw [← hdec, trailNLS_snoc_content _ _ hc1 hc2]

-- push-package lemmas
theorem wChunk (k : Nat) (l m : List Char) (hr : nlRunsLE k l = true)
    (hm : m.contains '\n' = false) (hx : ∃ c ∈ m, ¬ c = ' ') :
    nlRunsLE k (l ++ m) = true ∧ trailNLS (l ++ m) = 0 ∧ deepOK (l ++ m) := by
  refine ⟨?_, ?_, ?_⟩
  · rw [runs_append_nlfree k l m hm]; exact hr
  · exact trailNLS_append_content l m hm hx
  · exact deepOK_of_trailNLS_zero _ (trailNLS_append_content l m hm hx)

theorem wNlPush (k : Nat) (l : List Char) (hr : nlRunsLE k l = true)
    (ht : trailNL l + 1 ≤ k)
    (hz : endsWithC l '\n' = false → trailNLS l = 0)
    (hd : deepOK l) :
    nlRunsLE k (l ++ ['\n']) = true ∧ trailNLS (l ++ ['\n']) = trailNL l + 1 ∧
      deepOK (l ++ ['\n']) := by
  refine ⟨?_, trailNLS_snoc_nl l, ?_⟩
  · rw [runs_snoc_nl, hr, Bool.true_and, decide_eq_true_iff]
    exact ht
  · unfold deepOK
    rw [pts_snoc l '\n' (by decide), dropTrailNL_snoc_nl]
    by_cases he : endsWithC l '\n' = true
    · unfold deepOK at hd
      rwa [pts_of_ends_nl l he] at hd
    · rw [Bool.not_eq_true] at he
      rw [dropTrailNL_eq_self l (trailNL_zero_of_not_ends_nl l he)]
      exact hz he


-- the blank-collapse loop restores the render invariant
theorem collapseBlanks_spec (B : Nat) :
    ∀ (b : Nat) (out : List Char),
      nlRunsLE (B + 1) out = true → trailNLS out ≤ b → deepOK out →
      (endsWithC out '\n' = true ∨ trailNLS out = 0) →
      nlRunsLE (B + 1) (collapseBlanks B out b).1 = true ∧
      trailNLS (collapseBlanks B out b).1 ≤ (collapseBlanks B out b).2 ∧
      deepOK (collapseBlanks B out b).1 ∧
      ((collapseBlanks B out b).2 ≤ B ∨ trailNLS (collapseBlanks B out b).1 = 0)
  | 0, out, h1, h2, h3, _ => by
    rw [collapseBlanks]
    exact ⟨h1, h2, h3, Or.inl (Nat.zero_le B)⟩
  | b + 1, out, h1, h2, h3, h4 => by
    rw [collapseBlanks]
    by_cases hc : (decide (b + 1 > B) && endsWithC out '\n') = true
    · rw [if_pos hc]
      rw [Bool.and_eq_true] at hc
      have hnl : endsWithC out '\n' = true := hc.2
      have hdec := ends_nl_decomp out hnl
      have hpts : popTrailSpaces out = out := pts_of_ends_nl out hnl
      have htS : trailNLS out = trailNL out := by
        unfold trailNLS
        rw [hpts]
      have htd : trailNL out = trailNL out.dropLast + 1 := by
        conv_lhs => rw [← hdec]
        rw [trailNL_snoc_nl]
      -- establish the four hypotheses for the recursive call
      have r1 : nlRunsLE (B + 1) out.dropLast = true := by
        refine runs_of_append_left (B + 1) _ ['\n'] ?_
        rw [hdec]
        exact h1
      have hcase : trailNLS out.dropLast = trailNL out.dropLast ∨
          trailNLS out.dropLast = 0 := by
        by_cases hz : trailNL out.dropLast = 0
        · right
          have hdd : dropTrailNL out = out.dropLast := by
            conv_lhs => rw [← hdec]
            rw [dropTrailNL_snoc_nl, dropTrailNL_eq_self _ hz]
          unfold deepOK at h3
          rw [hpts, hdd] at h3
          exact h3
        · left
          have : endsWithC out.dropLast '\n' = true :=
            ends_nl_of_trailNL_pos _ (Nat.pos_of_ne_zero hz)
          unfold trailNLS
          rw [pts_of_ends_nl _ this]
      have r2 : trailNLS out.dropLast ≤ b := by
        rcases hcase with h | h
        · rw [h]
          have : trailNL out.dropLast + 1 ≤ b + 1 := by
            rw [← htd, ← htS]
            exact h2
          exact Nat.le_of_succ_le_succ this
        · rw [h]
          exact Nat.zero_le b
      have r3 : deepOK out.dropLast := by
        by_cases hz : trailNL out.dropLast = 0
        · rcases hcase with h | h
          · exact deepOK_of_trailNLS_zero _ (by rw [h, hz])
          · exact deepOK_of_trailNLS_zero _ h
        · have hend : endsWithC out.dropLast '\n' = true :=
            ends_nl_of_trailNL_pos _ (Nat.pos_of_ne_zero hz)
          unfold deepOK at h3 ⊢
          rw [hpts] at h3
          rw [pts_of_ends_nl _ hend]
          have hdd : dropTrailNL out = dropTrailNL out.dropLast := by
            conv_lhs => rw [← hdec]
            rw [dropTrailNL_snoc_nl]
          rwa [hdd] at h3
      have r4 : endsWithC out.dropLast '\n' = true ∨ trailNLS out.dropLast = 0 := by
        by_cases hz : trailNL out.dropLast = 0
        · rcases hcase with h | h
          · right; rw [h, hz]
          · right; exact h
        · left
          exact ends_nl_of_trailNL_pos _ (Nat.pos_of_ne_zero hz)
      exact collapseBlanks_spec B b out.dropLast r1 r2 r3 r4
    · rw [if_neg hc]
      refine ⟨h1, h2, h3, ?_⟩
      rw [Bool.and_eq_true, not_and_or] at hc
      rcases hc with h | h
      · left
        have : ¬ b + 1 > B := by
          intro hgt
          exact h (by simpa using hgt)
        omega
      · right
        rw [Bool.not_eq_true] at h
        rcases h4 with h4 | h4
        · rw [h4] at h
          exact absurd h (by simp)
        · exact h4

/-- `collapseStep` turns the post-arm invariant back into the full
render invariant. -/
theorem collapseStep_rinv (opts : FormatterOptions) (s : RState)
    (hw : winv opts.max_blank_lines s) :
    rinv opts.max_blank_lines (collapseStep opts s) := by
  obtain ⟨h1, h2, h3w, h5, h4⟩ := hw
  unfold collapseStep
  by_cases hc : (s.need_indent && decide (s.blanks > opts.max_blank_lines)) = true
  · rw [if_pos hc]
    rw [Bool.and_eq_true] at hc
    have hni : s.need_indent = true := hc.1
    have := collapseBlanks_spec opts.max_blank_lines s.blanks s.out h1 h2 h4 (h3w hni)
    obtain ⟨r1, r2, r3, r4⟩ := this
    refine ⟨r1, r2, ?_, ?_, r3⟩
    · intro _
      rcases r4 with h | h
      · exact Nat.le_trans r2 h
      · rw [h]
        exact Nat.zero_le _
    · intro hni'
      rw [hni] at hni'
      exact absurd hni' (by simp)
  · rw [if_neg hc]
    refine ⟨h1, h2, ?_, h5, h4⟩
    intro hni
    rw [Bool.and_eq_true, not_and_or] at hc
    rcases hc with h | h
    · exact absurd hni h
    · have : ¬ s.blanks > opts.max_blank_lines := by
        intro hgt
        exact h (by simpa using hgt)
      omega


-- small utilities for the arm proofs
theorem winv_of_zero (B : Nat) (s : RState) (hr : nlRunsLE (B + 1) s.out = true)
    (hz : trailNLS s.out = 0) : winv B s :=
  ⟨hr, by rw [hz]; exact Nat.zero_le _, fun _ => Or.inr hz, fun _ => hz,
    deepOK_of_trailNLS_zero _ hz⟩

theorem contains_append_or (l1 l2 : List Char) (a : Char) :
    (l1 ++ l2).contains a = (l1.contains a || l2.contains a) := by
  simp [List.contains_eq_any_beq, List.any_append]

theorem replicate_space_contains_nl (n : Nat) :
    (List.replicate n ' ').contains '\n' = false := by
  induction n with
  | zero => rfl
  | succ m ih =>
    rw [List.replicate_succ, List.contains_cons]
    simp [ih]

theorem runs_write_indent (k : Nat) (l : List Char) (i : Int) (sz : Nat)
    (h : nlRunsLE k l = true) : nlRunsLE k (write_indent l i sz) = true := by
  unfold write_indent
  rw [runs_append_nlfree _ _ _ (replicate_space_contains_nl _)]
  exact h

theorem runs_maybe_indent (k : Nat) (b : Bool) (l : List Char) (i : Int) (sz : Nat)
    (h : nlRunsLE k l = true) :
    nlRunsLE k (if b then write_indent l i sz else l) = true := by
  by_cases hb : b = true
  · rw [if_pos hb]
    exact runs_write_indent k l i sz h
  · rw [Bool.not_eq_true] at hb
    rw [hb, if_neg (by simp)]
    exact h

theorem trailNLS_write_indent (l : List Char) (i : Int) (sz : Nat) :
    trailNLS (write_indent l i sz) = trailNLS l := by
  unfold write_indent
  rw [trailNLS_append_spaces]

-- the `.newline` arm
theorem armW_newline (opts : FormatterOptions) (s : RState) (restT : List TKind)
    (h : rinv opts.max_blank_lines s) :
    winv opts.max_blank_lines (renderTok opts s .newline restT) := by
  obtain ⟨h1, h2, h3, h5, h4⟩ := h
  simp only [renderTok]
  have hB : trailNL (popTrailSpaces s.out) ≤ opts.max_blank_lines := by
    by_cases hni : s.need_indent = true
    · exact h3 hni
    · rw [Bool.not_eq_true] at hni
      rw [show trailNL (popTrailSpaces s.out) = trailNLS s.out from rfl, h5 hni]
      exact Nat.zero_le _
  have hp := wNlPush (opts.max_blank_lines + 1) (popTrailSpaces s.out)
    (runs_pts _ _ h1) (Nat.succ_le_succ hB)
    (fun hne => by
      rw [show trailNLS (popTrailSpaces s.out) = trailNL (popTrailSpaces s.out) by
            unfold trailNLS; rw [pts_idem]]
      exact trailNL_zero_of_not_ends_nl _ hne)
    ((deepOK_pts s.out).mpr h4)
  obtain ⟨p1, p2, p3⟩ := hp
  refine ⟨p1, ?_, fun _ => ?_, fun hf => by simp at hf, p3⟩
  · rw [p2]
    show trailNL (popTrailSpaces s.out) + 1 ≤ s.blanks + 1
    refine Nat.succ_le_succ ?_
    exact Nat.le_trans (trailNL_le_trailNLS _) (by
      rw [show trailNLS (popTrailSpaces s.out) = trailNLS s.out by
            unfold trailNLS; rw [pts_idem]]
      exact h2)
  · left
    rw [endsWithC_snoc]
    simp


theorem runs_maybe_space (k : Nat) (b : Bool) (l : List Char)
    (h : nlRunsLE k l = true) :
    nlRunsLE k (if b then l ++ [' '] else l) = true := by
  by_cases hb : b = true
  · rw [if_pos hb, runs_snoc _ _ _ (by decide)]
    exact h
  · rw [Bool.not_eq_true] at hb
    rw [hb, if_neg (by simp)]
    exact h

theorem trailNLS_maybe_space (b : Bool) (l : List Char) :
    trailNLS (if b then l ++ [' '] else l) = trailNLS l := by
  by_cases hb : b = true
  · rw [if_pos hb, trailNLS_snoc_space]
  · rw [Bool.not_eq_true] at hb
    rw [hb, if_neg (by simp)]

theorem headNonSpace_exists (m : List Char) (h : headNonSpace m = true) :
    ∃ c ∈ m, ¬ c = ' ' := by
  cases m with
  | nil => exact absurd h (by simp [headNonSpace])
  | cons c tl =>
    refine ⟨c, List.mem_cons_self c tl, ?_⟩
    simp only [headNonSpace, List.head?_cons, Bool.not_eq_true'] at h
    simpa using h

/-- A maybe-indent followed by a maybe-space followed by a nonempty
newline-free text: the shape of the `.lineComment`, `.ident`, `.number`
and `.str` arms (and the core of several others). -/
theorem wTextPush (B : Nat) (s : RState) (b : Bool) (text : List Char)
    (h1 : nlRunsLE (B + 1) s.out = true)
    (hnl : text.contains '\n' = false) (hhd : headNonSpace text = true)
    (i : Int) (sz : Nat) :
    nlRunsLE (B + 1)
      ((if b then (if s.need_indent then write_indent s.out i sz else s.out) ++ [' ']
        else (if s.need_indent then write_indent s.out i sz else s.out)) ++ text) = true ∧
    trailNLS
      ((if b then (if s.need_indent then write_indent s.out i sz else s.out) ++ [' ']
        else (if s.need_indent then write_indent s.out i sz else s.out)) ++ text) = 0 := by
  constructor
  · rw [runs_append_nlfree _ _ _ hnl]
    exact runs_maybe_space _ _ _ (runs_maybe_indent _ _ _ _ _ h1)
  · exact trailNLS_append_content _ _ hnl (headNonSpace_exists _ hhd)

theorem armW_lineComment (opts : FormatterOptions) (s : RState) (text : List Char)
    (restT : List TKind) (h : rinv opts.max_blank_lines s)
    (hnl : text.contains '\n' = false) (hhd : headNonSpace text = true) :
    winv opts.max_blank_lines (renderTok opts s (.lineComment text) restT) := by
  obtain ⟨h1, _, _, _, _⟩ := h
  simp only [renderTok]
  obtain ⟨r1, r2⟩ := wTextPush opts.max_blank_lines s
    (s.prev_was_token && !endsWithC (if s.need_indent then write_indent s.out s.indent opts.indent_size else s.out) ' ')
    text h1 hnl hhd s.indent opts.indent_size
  exact winv_of_zero _ _ r1 r2

theorem armW_ident (opts : FormatterOptions) (s : RState) (text : List Char)
    (restT : List TKind) (h : rinv opts.max_blank_lines s)
    (hnl : text.contains '\n' = false) (hhd : headNonSpace text = true) :
    winv opts.max_blank_lines (renderTok opts s (.ident text) restT) := by
  obtain ⟨h1, _, _, _, _⟩ := h
  simp only [renderTok]
  obtain ⟨r1, r2⟩ := wTextPush opts.max_blank_lines s
    (prevSpacedKind s.prev_kind && !endsWithC (if s.need_indent then write_indent s.out s.indent opts.indent_size else s.out) ' ' && !endsWithC (if s.need_indent then write_indent s.out s.indent opts.indent_size else s.out) '\n')
    text h1 hnl hhd s.indent opts.indent_size
  exact winv_of_zero _ _ r1 r2

theorem armW_number (opts : FormatterOptions) (s : RState) (text : List Char)
    (restT : List TKind) (h : rinv opts.max_blank_lines s)
    (hnl : text.contains '\n' = false) (hhd : headNonSpace text = true) :
    winv opts.max_blank_lines (renderTok opts s (.number text) restT) := by
  obtain ⟨h1, _, _, _, _⟩ := h
  simp only [renderTok]
  obtain ⟨r1, r2⟩ := wTextPush opts.max_blank_lines s
    (prevSpacedKind s.prev_kind && !endsWithC (if s.need_indent then write_indent s.out s.indent opts.indent_size else s.out) ' ' && !endsWithC (if s.need_indent then write_indent s.out s.indent opts.indent_size else s.out) '\n')
    text h1 hnl hhd s.indent opts.indent_size
  exact winv_of_zero _ _ r1 r2

theorem armW_str (opts : FormatterOptions) (s : RState) (text : List Char)
    (restT : List TKind) (h : rinv opts.max_blank_lines s)
    (hnl : text.contains '\n' = false) (hhd : headNonSpace text = true) :
    winv opts.max_blank_lines (renderTok opts s (.str text) restT) := by
  obtain ⟨h1, _, _, _, _⟩ := h
  simp only [renderTok]
  obtain ⟨r1, r2⟩ := wTextPush opts.max_blank_lines s
    (prevSpacedKind s.prev_kind && !endsWithC (if s.need_indent then write_indent s.out s.indent opts.indent_size else s.out) ' ' && !endsWithC (if s.need_indent then write_indent s.out s.indent opts.indent_size else s.out) '\n')
    text h1 hnl hhd s.indent opts.indent_size
  exact winv_of_zero _ _ r1 r2


theorem runs_ite (k : Nat) (c : Prop) [Decidable c] (l1 l2 : List Char)
    (h1 : nlRunsLE k l1 = true) (h2 : nlRunsLE k l2 = true) :
    nlRunsLE k (if c then l1 else l2) = true := by
  by_cases h : c
  · rwa [if_pos h]
  · rwa [if_neg h]

theorem trailNLS_ite (c : Prop) [Decidable c] (l1 l2 : List Char) (n : Nat)
    (h1 : trailNLS l1 = n) (h2 : trailNLS l2 = n) :
    trailNLS (if c then l1 else l2) = n := by
  by_cases h : c
  · rwa [if_pos h]
  · rwa [if_neg h]

theorem armW_blockComment (opts : FormatterOptions) (s : RState) (text : List Char)
    (restT : List TKind) (h : rinv opts.max_blank_lines s)
    (hnl : text.contains '\n' = false) (hhd : headNonSpace text = true) :
    winv opts.max_blank_lines (renderTok opts s (.blockComment text) restT) := by
  obtain ⟨h1, _, _, _, _⟩ := h
  simp only [renderTok, hnl, Bool.false_eq_true, if_false]
  refine winv_of_zero _ _ ?_ ?_
  · refine runs_maybe_space _ _ _ ?_
    rw [runs_append_nlfree _ _ _ hnl]
    exact runs_maybe_indent _ _ _ _ _ h1
  · rw [trailNLS_maybe_space]
    exact trailNLS_append_content _ _ hnl (headNonSpace_exists _ hhd)

theorem armW_keyword (opts : FormatterOptions) (s : RState) (text : List Char)
    (restT : List TKind) (h : rinv opts.max_blank_lines s)
    (hnl : text.contains '\n' = false) (hhd : headNonSpace text = true) :
    winv opts.max_blank_lines (renderTok opts s (.keyword text) restT) := by
  obtain ⟨h1, _, _, _, _⟩ := h
  simp only [renderTok]
  obtain ⟨hr3, hz3⟩ := wTextPush opts.max_blank_lines s
    ((match s.prev_kind with
      | some (.ident _) | some (.number _) | some (.str _)
      | some .rparen | some .rbracket => true
      | _ => false) &&
     !endsWithC (if s.need_indent then write_indent s.out s.indent opts.indent_size else s.out) ' ' &&
     !endsWithC (if s.need_indent then write_indent s.out s.indent opts.indent_size else s.out) '\n')
    text h1 hnl hhd s.indent opts.indent_size
  cases restT.head? with
  | none => exact winv_of_zero _ _ hr3 hz3
  | some tk =>
    cases tk <;>
      first
        | exact winv_of_zero _ _ hr3 hz3
        | exact winv_of_zero _ _ (runs_maybe_space _ _ _ hr3)
            (by rw [trailNLS_maybe_space]; exact hz3)

theorem armW_op (opts : FormatterOptions) (s : RState) (text : List Char)
    (restT : List TKind) (h : rinv opts.max_blank_lines s)
    (hnl : text.contains '\n' = false) (hhd : headNonSpace text = true) :
    winv opts.max_blank_lines (renderTok opts s (.op text) restT) := by
  obtain ⟨h1, _, _, _, _⟩ := h
  simp only [renderTok]
  split
  · -- generic `<`
    refine winv_of_zero _ _ ?_ ?_
    · rw [runs_snoc _ _ _ (by decide)]
      exact runs_maybe_space _ _ _ (runs_maybe_indent _ _ _ _ _ h1)
    · exact trailNLS_snoc_content _ _ (by decide) (by decide)
  · split
    · -- generic `>`
      refine winv_of_zero _ _ ?_ ?_
      · rw [runs_snoc _ _ _ (by decide)]
        exact runs_maybe_space _ _ _ (runs_maybe_indent _ _ _ _ _ h1)
      · exact trailNLS_snoc_content _ _ (by decide) (by decide)
    · -- ordinary operator, then maybe a trailing space
      refine winv_of_zero _ _ ?_ ?_
      · refine runs_maybe_space _ _ _ ?_
        rw [runs_append_nlfree _ _ _ hnl]
        exact runs_maybe_space _ _ _ (runs_maybe_indent _ _ _ _ _ h1)
      · rw [trailNLS_maybe_space]
        exact trailNLS_append_content _ _ hnl (headNonSpace_exists _ hhd)

theorem armW_comma (opts : FormatterOptions) (s : RState) (restT : List TKind)
    (h : rinv opts.max_blank_lines s) :
    winv opts.max_blank_lines (renderTok opts s .comma restT) := by
  obtain ⟨h1, _, _, _, _⟩ := h
  simp only [renderTok]
  refine winv_of_zero _ _ ?_ ?_
  · refine runs_ite _ _ _ _ ?_ ?_
    · rw [runs_snoc _ _ _ (by decide), runs_snoc _ _ _ (by decide)]
      exact h1
    · rw [runs_snoc _ _ _ (by decide)]
      exact h1
  · refine trailNLS_ite _ _ _ _ ?_ ?_
    · rw [trailNLS_snoc_space]
      exact trailNLS_snoc_content _ _ (by decide) (by decide)
    · exact trailNLS_snoc_content _ _ (by decide) (by decide)

theorem armW_colon (opts : FormatterOptions) (s : RState) (restT : List TKind)
    (h : rinv opts.max_blank_lines s) :
    winv opts.max_blank_lines (renderTok opts s .colon restT) := by
  obtain ⟨h1, _, _, _, _⟩ := h
  simp only [renderTok]
  refine winv_of_zero _ _ ?_ ?_
  · rw [runs_append_nlfree _ _ _ (by decide)]
    exact h1
  · exact trailNLS_append_content _ _ (by decide) ⟨':', by decide, by decide⟩

theorem armW_dot (opts : FormatterOptions) (s : RState) (restT : List TKind)
    (h : rinv opts.max_blank_lines s) :
    winv opts.max_blank_lines (renderTok opts s .dot restT) := by
  obtain ⟨h1, _, _, _, _⟩ := h
  simp only [renderTok]
  exact winv_of_zero _ _ (by rw [runs_snoc _ _ _ (by decide)]; exact h1)
    (trailNLS_snoc_content _ _ (by decide) (by decide))

theorem armW_rparen (opts : FormatterOptions) (s : RState) (restT : List TKind)
    (h : rinv opts.max_blank_lines s) :
    winv opts.max_blank_lines (renderTok opts s .rparen restT) := by
  obtain ⟨h1, _, _, _, _⟩ := h
  simp only [renderTok]
  exact winv_of_zero _ _ (by rw [runs_snoc _ _ _ (by decide)]; exact h1)
    (trailNLS_snoc_content _ _ (by decide) (by decide))

theorem armW_rbracket (opts : FormatterOptions) (s : RState) (restT : List TKind)
    (h : rinv opts.max_blank_lines s) :
    winv opts.max_blank_lines (renderTok opts s .rbracket restT) := by
  obtain ⟨h1, _, _, _, _⟩ := h
  simp only [renderTok]
  exact winv_of_zero _ _ (by rw [runs_snoc _ _ _ (by decide)]; exact h1)
    (trailNLS_snoc_content _ _ (by decide) (by decide))

theorem armW_lparen (opts : FormatterOptions) (s : RState) (restT : List TKind)
    (h : rinv opts.max_blank_lines s) :
    winv opts.max_blank_lines (renderTok opts s .lparen restT) := by
  obtain ⟨h1, _, _, _, _⟩ := h
  simp only [renderTok]
  split
  · -- keyword `if`/`while`/`for` before `(`: maybe a space
    refine winv_of_zero _ _ ?_ ?_
    · rw [runs_snoc _ _ _ (by decide)]
      exact runs_ite _ _ _ _
        (by rw [runs_snoc _ _ _ (by decide)]; exact runs_maybe_indent _ _ _ _ _ h1)
        (runs_maybe_indent _ _ _ _ _ h1)
    · exact trailNLS_snoc_content _ _ (by decide) (by decide)
  · exact winv_of_zero _ _
      (by rw [runs_snoc _ _ _ (by decide)]; exact runs_maybe_indent _ _ _ _ _ h1)
      (trailNLS_snoc_content _ _ (by decide) (by decide))

theorem armW_lbracket (opts : FormatterOptions) (s : RState) (restT : List TKind)
    (h : rinv opts.max_blank_lines s) :
    winv opts.max_blank_lines (renderTok opts s .lbracket restT) := by
  obtain ⟨h1, _, _, _, _⟩ := h
  simp only [renderTok]
  split
  · refine winv_of_zero _ _ ?_ ?_
    · rw [runs_snoc _ _ _ (by decide)]
      exact runs_maybe_space _ _ _ (runs_maybe_indent _ _ _ _ _ h1)
    · exact trailNLS_snoc_content _ _ (by decide) (by decide)
  · exact winv_of_zero _ _
      (by rw [runs_snoc _ _ _ (by decide)]; exact runs_maybe_indent _ _ _ _ _ h1)
      (trailNLS_snoc_content _ _ (by decide) (by decide))

theorem armW_assign (opts : FormatterOptions) (s : RState) (restT : List TKind)
    (h : rinv opts.max_blank_lines s) :
    winv opts.max_blank_lines (renderTok opts s .assign restT) := by
  obtain ⟨h1, _, _, _, _⟩ := h
  simp only [renderTok]
  refine winv_of_zero _ _ ?_ ?_
  · rw [runs_append_nlfree _ _ _ (by decide)]
    exact runs_maybe_space _ _ _ (runs_maybe_indent _ _ _ _ _ h1)
  · exact trailNLS_append_content _ _ (by decide) ⟨'=', by decide, by decide⟩


theorem trailNL_ite (c : Prop) [Decidable c] (l1 l2 : List Char) (n : Nat)
    (h1 : trailNL l1 = n) (h2 : trailNL l2 = n) : trailNL (if c then l1 else l2) = n := by
  by_cases h : c
  · rwa [if_pos h]
  · rwa [if_neg h]

/-- Pushing `'\n'` onto a buffer with no trailing newline-or-space:
the package of facts for a fresh single-newline ending. -/
theorem wcontentNl (B : Nat) (X : List Char) (hr : nlRunsLE (B + 1) X = true)
    (hz : trailNLS X = 0) :
    nlRunsLE (B + 1) (X ++ ['\n']) = true ∧ trailNLS (X ++ ['\n']) = 1 ∧
      deepOK (X ++ ['\n']) ∧ endsWithC (X ++ ['\n']) '\n' = true := by
  have ht : trailNL X = 0 :=
    Nat.le_antisymm (hz ▸ trailNL_le_trailNLS X) (Nat.zero_le _)
  obtain ⟨p1, p2, p3⟩ := wNlPush (B + 1) X hr
    (by rw [ht]; exact Nat.succ_le_succ (Nat.zero_le _))
    (fun _ => hz) (deepOK_of_trailNLS_zero _ hz)
  refine ⟨p1, by rw [p2, ht], p3, ?_⟩
  rw [endsWithC_snoc]
  simp

/-- A `winv` state whose buffer ends in a fresh single newline with
`blanks = 1` and `need_indent = true`. -/
theorem winv_of_nl1 (B : Nat) (s : RState) (X : List Char)
    (ho : s.out = X ++ ['\n']) (hb : s.blanks = 1) (hni : s.need_indent = true)
    (hr : nlRunsLE (B + 1) X = true) (hz : trailNLS X = 0) : winv B s := by
  obtain ⟨p1, p2, p3, p4⟩ := wcontentNl B X hr hz
  refine ⟨by rw [ho]; exact p1, by rw [ho, hb]; exact Nat.le_of_eq p2,
    fun _ => Or.inl (by rw [ho]; exact p4), fun hf => ?_, by rw [ho]; exact p3⟩
  rw [hni] at hf
  exact absurd hf (by simp)

theorem armW_semicolon (opts : FormatterOptions) (s : RState) (restT : List TKind)
    (h : rinv opts.max_blank_lines s) :
    winv opts.max_blank_lines (renderTok opts s .semicolon restT) := by
  obtain ⟨h1, _, _, _, _⟩ := h
  simp only [renderTok]
  split
  · exact winv_of_zero _ _
      (by rw [runs_snoc _ _ _ (by decide), runs_snoc _ _ _ (by decide)]; exact h1)
      (by rw [trailNLS_snoc_space]; exact trailNLS_snoc_content _ _ (by decide) (by decide))
  · split
    · exact winv_of_nl1 _ _ (s.out ++ [';']) rfl rfl rfl
        (by rw [runs_snoc _ _ _ (by decide)]; exact h1)
        (trailNLS_snoc_content _ _ (by decide) (by decide))
    · exact winv_of_zero _ _
        (by rw [runs_snoc _ _ _ (by decide)]; exact h1)
        (trailNLS_snoc_content _ _ (by decide) (by decide))

theorem armW_rbrace (opts : FormatterOptions) (s : RState) (restT : List TKind)
    (h : rinv opts.max_blank_lines s) :
    winv opts.max_blank_lines (renderTok opts s .rbrace restT) := by
  obtain ⟨h1, _, _, h5, _⟩ := h
  simp only [renderTok]
  split
  · -- inline `}`
    exact winv_of_zero _ _
      (by rw [runs_snoc _ _ _ (by decide)]; exact runs_maybe_space _ _ _ h1)
      (trailNLS_snoc_content _ _ (by decide) (by decide))
  · -- block `}`
    by_cases hni : s.need_indent = true
    · rw [if_pos hni]
      have hcore1 : nlRunsLE (opts.max_blank_lines + 1)
          (write_indent s.out (max (s.indent - 1) 0) opts.indent_size ++ ['}']) = true := by
        rw [runs_snoc _ _ _ (by decide)]
        exact runs_write_indent _ _ _ _ h1
      have hcore2 : trailNLS
          (write_indent s.out (max (s.indent - 1) 0) opts.indent_size ++ ['}']) = 0 :=
        trailNLS_snoc_content _ _ (by decide) (by decide)
      split
      · exact winv_of_zero _ _ hcore1 hcore2
      · exact winv_of_zero _ _ hcore1 hcore2
      · exact winv_of_nl1 _ _ _ rfl rfl rfl hcore1 hcore2
    · have hni' : s.need_indent = false := by
        rw [Bool.not_eq_true] at hni
        exact hni
      rw [hni', if_neg (by simp)]
      have hz0 : trailNLS s.out = 0 := h5 hni'
      have ht0 : trailNL s.out = 0 :=
        Nat.le_antisymm (hz0 ▸ trailNL_le_trailNLS s.out) (Nat.zero_le _)
      have hzx : trailNLS (if ((match s.prev_kind with
            | some TKind.rbrace => true
            | _ => false) && !endsWithC s.out ';') = true
          then s.out ++ [';'] else s.out) = 0 :=
        trailNLS_ite _ _ _ _ (trailNLS_snoc_content _ _ (by decide) (by decide)) hz0
      have hrx : nlRunsLE (opts.max_blank_lines + 1) ((if ((match s.prev_kind with
            | some TKind.rbrace => true
            | _ => false) && !endsWithC s.out ';') = true
          then s.out ++ [';'] else s.out) ++ ['\n']) = true := by
        obtain ⟨p1, _, _, _⟩ := wcontentNl opts.max_blank_lines _
          (runs_ite _ _ _ _ (by rw [runs_snoc _ _ _ (by decide)]; exact h1) h1) hzx
        exact p1
      have hdx := wcontentNl opts.max_blank_lines _
        (runs_ite _ _ _ _ (by rw [runs_snoc _ _ _ (by decide)]; exact h1) h1) hzx
      have hcore1 : nlRunsLE (opts.max_blank_lines + 1)
          (write_indent ((if ((match s.prev_kind with
            | some TKind.rbrace => true
            | _ => false) && !endsWithC s.out ';') = true
          then s.out ++ [';'] else s.out) ++ ['\n']) (max (s.indent - 1) 0)
            opts.indent_size ++ ['}']) = true := by
        rw [runs_snoc _ _ _ (by decide)]
        exact runs_write_indent _ _ _ _ hdx.1
      have hcore2 : trailNLS
          (write_indent ((if ((match s.prev_kind with
            | some TKind.rbrace => true
            | _ => false) && !endsWithC s.out ';') = true
          then s.out ++ [';'] else s.out) ++ ['\n']) (max (s.indent - 1) 0)
            opts.indent_size ++ ['}']) = 0 :=
        trailNLS_snoc_content _ _ (by decide) (by decide)
      split
      · exact winv_of_zero _ _ hcore1 hcore2
      · exact winv_of_zero _ _ hcore1 hcore2
      · exact winv_of_nl1 _ _ _ rfl rfl rfl hcore1 hcore2

theorem armW_lbrace (opts : FormatterOptions) (s : RState) (restT : List TKind)
    (h : rinv opts.max_blank_lines s) :
    winv opts.max_blank_lines (renderTok opts s .lbrace restT) := by
  obtain ⟨h1, _, _, _, _⟩ := h
  simp only [renderTok]
  have hX : nlRunsLE (opts.max_blank_lines + 1)
      ((if (!endsWithC (if s.need_indent then write_indent s.out s.indent opts.indent_size else s.out) ' ' &&
            !endsWithC (if s.need_indent then write_indent s.out s.indent opts.indent_size else s.out) '\n' &&
            !endsWithC (if s.need_indent then write_indent s.out s.indent opts.indent_size else s.out) '{' &&
            !endsWithC (if s.need_indent then write_indent s.out s.indent opts.indent_size else s.out) '(') = true
        then (if s.need_indent then write_indent s.out s.indent opts.indent_size else s.out) ++ [' ']
        else (if s.need_indent then write_indent s.out s.indent opts.indent_size else s.out))) = true :=
    runs_maybe_space _ _ _ (runs_maybe_indent _ _ _ _ _ h1)
  split
  · -- block context `{`
    by_cases hnf : isNewlineTok restT.head? = true
    · rw [hnf]
      simp only [Bool.not_true, Bool.false_eq_true, if_false]
      exact winv_of_zero _ _ (by rw [runs_snoc _ _ _ (by decide)]; exact hX)
        (trailNLS_snoc_content _ _ (by decide) (by decide))
    · have hnf' : isNewlineTok restT.head? = false := by
        rw [Bool.not_eq_true] at hnf
        exact hnf
      rw [hnf']
      simp only [Bool.not_false, if_true]
      exact winv_of_nl1 _ _ _ rfl rfl rfl
        (by rw [runs_snoc _ _ _ (by decide)]; exact hX)
        (trailNLS_snoc_content _ _ (by decide) (by decide))
  · split
    · -- object `{` rendered in block style
      by_cases hnf : isNewlineTok restT.head? = true
      · rw [hnf]
        simp only [Bool.not_true, Bool.false_eq_true, if_false]
        exact winv_of_zero _ _ (by rw [runs_snoc _ _ _ (by decide)]; exact hX)
          (trailNLS_snoc_content _ _ (by decide) (by decide))
      · have hnf' : isNewlineTok restT.head? = false := by
          rw [Bool.not_eq_true] at hnf
          exact hnf
        rw [hnf']
        simp only [Bool.not_false, if_true]
        exact winv_of_nl1 _ _ _ rfl rfl rfl
          (by rw [runs_snoc _ _ _ (by decide)]; exact hX)
          (trailNLS_snoc_content _ _ (by decide) (by decide))
    · -- inline object `{ `
      exact winv_of_zero _ _
        (by rw [runs_append_nlfree _ _ _ (by decide)]; exact hX)
        (trailNLS_append_content _ _ (by decide) ⟨'{', by decide, by decide⟩)


/-- Dispatcher: every token arm takes the render invariant to the
post-arm invariant, provided the token text embeds no newline and
starts with a non-space character. -/
theorem renderTok_winv (opts : FormatterOptions) (s : RState) (tok : TKind)
    (restT : List TKind) (h : rinv opts.max_blank_lines s)
    (hfree : tokNLFree tok = true) (hhead : tokHeadOK tok = true) :
    winv opts.max_blank_lines (renderTok opts s tok restT) := by
  cases tok with
  | lparen => exact armW_lparen opts s restT h
  | rparen => exact armW_rparen opts s restT h
  | lbrace => exact armW_lbrace opts s restT h
  | rbrace => exact armW_rbrace opts s restT h
  | lbracket => exact armW_lbracket opts s restT h
  | rbracket => exact armW_rbracket opts s restT h
  | comma => exact armW_comma opts s restT h
  | dot => exact armW_dot opts s restT h
  | semicolon => exact armW_semicolon opts s restT h
  | colon => exact armW_colon opts s restT h
  | assign => exact armW_assign opts s restT h
  | newline => exact armW_newline opts s restT h
  | op text =>
    exact armW_op opts s text restT h (by simpa [tokNLFree] using hfree)
      (by simpa [tokHeadOK] using hhead)
  | ident text =>
    exact armW_ident opts s text restT h (by simpa [tokNLFree] using hfree)
      (by simpa [tokHeadOK] using hhead)
  | number text =>
    exact armW_number opts s text restT h (by simpa [tokNLFree] using hfree)
      (by simpa [tokHeadOK] using hhead)
  | str text =>
    exact armW_str opts s text restT h (by simpa [tokNLFree] using hfree)
      (by simpa [tokHeadOK] using hhead)
  | keyword text =>
    exact armW_keyword opts s text restT h (by simpa [tokNLFree] using hfree)
      (by simpa [tokHeadOK] using hhead)
  | lineComment text =>
    exact armW_lineComment opts s text restT h (by simpa [tokNLFree] using hfree)
      (by simpa [tokHeadOK] using hhead)
  | blockComment text =>
    exact armW_blockComment opts s text restT h (by simpa [tokNLFree] using hfree)
      (by simpa [tokHeadOK] using hhead)

/-- The render loop preserves the invariant. -/
theorem renderGo_rinv (opts : FormatterOptions) :
    ∀ (toks : List TKind) (s : RState),
      (∀ t ∈ toks, tokNLFree t = true ∧ tokHeadOK t = true) →
      rinv opts.max_blank_lines s →
      rinv opts.max_blank_lines (renderGo opts toks s)
  | [], s, _, hr => by
    rw [renderGo]
    exact hr
  | tok :: restT, s, hall, hr => by
    rw [renderGo]
    have hm := hall tok (List.mem_cons_self tok restT)
    have hw := renderTok_winv opts s tok restT hr hm.1 hm.2
    have hr2 := collapseStep_rinv opts _ hw
    exact renderGo_rinv opts restT _
      (fun t ht => hall t (List.mem_cons_of_mem tok ht)) hr2

theorem rinv_init (B : Nat) : rinv B initRState := by
  refine ⟨rfl, Nat.le_refl 0, fun _ => Nat.zero_le B, fun hf => ?_, deepOK_nil⟩
  exact absurd hf (by simp [initRState])

/-- The final trim keeps the newline-run bound: the rendered output of a
newline-free token stream has no run longer than `max_blank_lines + 1`. -/
theorem render_runs (toks : List TKind) (opts : FormatterOptions)
    (hall : ∀ t ∈ toks, tokNLFree t = true ∧ tokHeadOK t = true) :
    nlRunsLE (opts.max_blank_lines + 1) (render toks opts) = true := by
  unfold render
  obtain ⟨h1, _, _, _, _⟩ := renderGo_rinv opts toks initRState hall
    (rinv_init opts.max_blank_lines)
  show nlRunsLE _ (dropTrailNL _ ++ ['\n']) = true
  rw [runs_snoc_nl, trailNL_dropTrailNL, runs_dropTrailNL _ _ h1]
  simp

-- bridge: a bounded-run buffer contains no run of k+1 newlines
theorem aux_replicate_bound (k : Nat) :
    ∀ (j : Nat) (t : List Char) (cur : Nat),
      nlRunsLEAux k (List.replicate (j + 1) '\n' ++ t) cur = true → cur + (j + 1) ≤ k
  | 0, t, cur, h => by
    rw [List.replicate_succ, List.replicate_zero, List.cons_append, List.nil_append,
        nlRunsLEAux_cons, if_pos rfl, Bool.and_eq_true, decide_eq_true_iff] at h
    omega
  | j + 1, t, cur, h => by
    rw [List.replicate_succ, List.cons_append, nlRunsLEAux_cons, if_pos rfl,
        Bool.and_eq_true] at h
    have := aux_replicate_bound k j t (cur + 1) h.2
    omega

theorem no_big_run_of_runs (k : Nat) (l : List Char) (h : nlRunsLE k l = true) :
    ¬ List.IsInfix (List.replicate (k + 1) '\n') l := by
  intro hinf
  obtain ⟨u, v, huv⟩ := hinf
  rw [← huv] at h
  unfold nlRunsLE at h
  rw [List.append_assoc, nlRunsLEAux_append, Bool.and_eq_true] at h
  have := aux_replicate_bound k k v (nlCarry u 0) h.2
  omega


set_option maxHeartbeats 1000000 in
/-- Every token `tokenize` produces has a nonempty text starting with a
non-space character (comments start with `/`, strings with `"`, and the
scanned head character is never a space since spaces are skipped). -/
theorem tokenizeGo_headOK :
    ∀ (fuel : Nat) (cs : List Char) (t : TKind), t ∈ tokenizeGo fuel cs → tokHeadOK t = true
  | 0, _, t, h => absurd h (List.not_mem_nil t)
  | _ + 1, [], t, h => absurd h (List.not_mem_nil t)
  | fuel + 1, c :: rest, t, h => by
    simp only [tokenizeGo] at h
    by_cases hc1 : c = '\n'
    · rw [if_pos hc1] at h
      rcases List.mem_cons.mp h with rfl | h
      · rfl
      · exact tokenizeGo_headOK fuel _ t h
    rw [if_neg hc1] at h
    by_cases hc2 : (c = ' ' || c = '\t' || c = '\r' || c = formFeed) = true
    · rw [if_pos hc2] at h
      exact tokenizeGo_headOK fuel _ t h
    rw [if_neg hc2] at h
    have hcs : ¬ c = ' ' := by
      intro he
      exact hc2 (by rw [he]; decide)
    by_cases hc3 : (c = '/' && rest.head? = some '/') = true
    · rw [if_pos hc3] at h
      rcases List.mem_cons.mp h with rfl | h
      · rfl
      · exact tokenizeGo_headOK fuel _ t h
    rw [if_neg hc3] at h
    by_cases hc4 : (c = '/' && rest.head? = some '*') = true
    · rw [if_pos hc4] at h
      rcases List.mem_cons.mp h with rfl | h
      · rfl
      · exact tokenizeGo_headOK fuel _ t h
    rw [if_neg hc4] at h
    by_cases hc5 : c = '"'
    · rw [if_pos hc5] at h
      rcases List.mem_cons.mp h with rfl | h
      · rfl
      · exact tokenizeGo_headOK fuel _ t h
    rw [if_neg hc5] at h
    by_cases hc6 : (match rest.head? with
        | some c2 => twoCharOps.contains [c, c2]
        | none => false) = true
    · rw [if_pos hc6] at h
      rcases List.mem_cons.mp h with rfl | h
      · simp [tokHeadOK, headNonSpace, hcs]
      · exact tokenizeGo_headOK fuel _ t h
    rw [if_neg hc6] at h
    by_cases hc7 : c = '('
    · rw [if_pos hc7] at h
      rcases List.mem_cons.mp h with rfl | h
      · rfl
      · exact tokenizeGo_headOK fuel _ t h
    rw [if_neg hc7] at h
    by_cases hc8 : c = ')'
    · rw [if_pos hc8] at h
      rcases List.mem_cons.mp h with rfl | h
      · rfl
      · exact tokenizeGo_headOK fuel _ t h
    rw [if_neg hc8] at h
    by_cases hc9 : c = '{'
    · rw [if_pos hc9] at h
      rcases List.mem_cons.mp h with rfl | h
      · rfl
      · exact tokenizeGo_headOK fuel _ t h
    rw [if_neg hc9] at h
    by_cases hc10 : c = '}'
    · rw [if_pos hc10] at h
      rcases List.mem_cons.mp h with rfl | h
      · rfl
      · exact tokenizeGo_headOK fuel _ t h
    rw [if_neg hc10] at h
    by_cases hc11 : c = '['
    · rw [if_pos hc11] at h
      rcases List.mem_cons.mp h with rfl | h
      · rfl
      · exact tokenizeGo_headOK fuel _ t h
    rw [if_neg hc11] at h
    by_cases hc12 : c = ']'
    · rw [if_pos hc12] at h
      rcases List.mem_cons.mp h with rfl | h
      · rfl
      · exact tokenizeGo_headOK fuel _ t h
    rw [if_neg hc12] at h
    by_cases hc13 : c = ','
    · rw [if_pos hc13] at h
      rcases List.mem_cons.mp h with rfl | h
      · rfl
      · exact tokenizeGo_headOK fuel _ t h
    rw [if_neg hc13] at h
    by_cases hc14 : c = '.'
    · rw [if_pos hc14] at h
      rcases List.mem_cons.mp h with rfl | h
      · rfl
      · exact tokenizeGo_headOK fuel _ t h
    rw [if_neg hc14] at h
    by_cases hc15 : c = ';'
    · rw [if_pos hc15] at h
      rcases List.mem_cons.mp h with rfl | h
      · rfl
      · exact tokenizeGo_headOK fuel _ t h
    rw [if_neg hc15] at h
    by_cases hc16 : c = ':'
    · rw [if_pos hc16] at h
      rcases List.mem_cons.mp h with rfl | h
      · rfl
      · exact tokenizeGo_headOK fuel _ t h
    rw [if_neg hc16] at h
    by_cases hc17 : singleOpChars.contains c = true
    · rw [if_pos hc17] at h
      rcases List.mem_cons.mp h with rfl | h
      · by_cases hce : c = '='
        · rw [if_pos hce]
          rfl
        · rw [if_neg hce]
          simp [tokHeadOK, headNonSpace, hcs]
      · exact tokenizeGo_headOK fuel _ t h
    rw [if_neg hc17] at h
    by_cases hc18 : is_ident_start c = true
    · rw [if_pos hc18] at h
      rcases List.mem_cons.mp h with rfl | h
      · by_cases hkw : fmtKeywords.contains (c :: List.takeWhile is_ident_continue rest) = true
        · rw [if_pos hkw]
          simp [tokHeadOK, headNonSpace, hcs]
        · rw [if_neg hkw]
          simp [tokHeadOK, headNonSpace, hcs]
      · exact tokenizeGo_headOK fuel _ t h
    rw [if_neg hc18] at h
    by_cases hc19 : isAsciiDigit c = true
    · rw [if_pos hc19] at h
      rcases List.mem_cons.mp h with rfl | h
      · simp [tokHeadOK, headNonSpace, hcs]
      · exact tokenizeGo_headOK fuel _ t h
    rw [if_neg hc19] at h
    rcases List.mem_cons.mp h with rfl | h
    · simp [tokHeadOK, headNonSpace, hcs]
    · exact tokenizeGo_headOK fuel _ t h

theorem tokenize_headOK (src : List Char) (t : TKind) (h : t ∈ tokenize src) :
    tokHeadOK t = true :=
  tokenizeGo_headOK (src.length + 1) src t h

/-- C8 (amended): for every input source and formatter options, if no
token of the formatter's tokenization of the input embeds a newline
character in its text (only block comments and string literals can),
then the formatted output never contains more than
`max_blank_lines + 1` consecutive newline characters. -/
theorem c8_blank_line_bound_outside_multiline_tokens (src : List Char)
    (opts : FormatterOptions)
    (h : ∀ t ∈ tokenize src, tokNLFree t = true) :
    ¬ List.IsInfix (List.replicate (opts.max_blank_lines + 2) '\n')
      (format_source_with_options src opts) := by
  unfold format_source_with_options
  exact no_big_run_of_runs (opts.max_blank_lines + 1) _
    (render_runs (tokenize src) opts
      (fun t ht => ⟨h t ht, tokenize_headOK src t ht⟩))

/-- C8 amended-theorem witness: the hypothesis holds for a concrete
source with six consecutive blank lines, and the bound follows by the
theorem. -/
theorem c8_blank_line_bound_witness :
    (∀ t ∈ tokenize c8goodsrc, tokNLFree t = true) ∧
      ¬ List.IsInfix (List.replicate (defaultOptions.max_blank_lines + 2) '\n')
        (format_source_with_options c8goodsrc defaultOptions) :=
  ⟨by decide,
    c8_blank_line_bound_outside_multiline_tokens c8goodsrc defaultOptions (by decide)⟩

end Questicle
